import Mathlib

/-!
Verification development for the image-classifier dataset crawlers
(`wga-parser.py` and `modern-image-parser.py`).  The pure string and
assembly logic of the two scripts is embedded as executable Lean
functions; network fetches, HTML parsing (BeautifulSoup) and the
filesystem are abstracted as explicit oracles and state that the
functions thread through, mirroring the control flow of the source.
-/

namespace ImageClassifier

/-! ## Character-list string primitives

Models of the Python string operations used by the scripts, written over
`List Char` so that every step is a plain structural recursion. -/

/-- Model of the test that `pre` is a leading segment of `l`. -/
def isPrefixL : List Char → List Char → Bool
  | [], _ => true
  | _ :: _, [] => false
  | a :: as, b :: bs => a == b && isPrefixL as bs

/-- Model of the Python substring test `needle in hay`. -/
def containsL (needle : List Char) : List Char → Bool
  | [] => needle.isEmpty
  | c :: rest => isPrefixL needle (c :: rest) || containsL needle rest

/-- Python `pat in s`. -/
def strContains (s pat : String) : Bool := containsL pat.toList s.toList

/-- Python `s.startswith(pre)`. -/
def strStarts (s pre : String) : Bool := isPrefixL pre.toList s.toList

/-- Python `s.endswith(suf)`. -/
def strEnds (s suf : String) : Bool := isPrefixL suf.toList.reverse s.toList.reverse

/-- Python `s.lower()` (ASCII case folding, which is all the scripts rely on). -/
def strLower (s : String) : String := String.mk (s.toList.map Char.toLower)

/-- Python `s.strip()` on a character list. -/
def trimL (l : List Char) : List Char :=
  ((l.dropWhile Char.isWhitespace).reverse.dropWhile Char.isWhitespace).reverse

/-- Python `s.strip()`. -/
def strTrim (s : String) : String := String.mk (trimL s.toList)

/-- Split at the first occurrence of `needle`, returning the parts before and
after it; `none` when `needle` does not occur.  Models Python
`s.split(pat, 1)` when the pattern is present. -/
def splitFirstL (needle : List Char) : List Char → Option (List Char × List Char)
  | [] => if needle.isEmpty then some ([], []) else none
  | c :: rest =>
    if isPrefixL needle (c :: rest) then some ([], (c :: rest).drop needle.length)
    else
      match splitFirstL needle rest with
      | some (pre, post) => some (c :: pre, post)
      | none => none

/-- Split at the first occurrence of `pat` (string version). -/
def splitFirst (s pat : String) : Option (String × String) :=
  (splitFirstL pat.toList s.toList).map (fun p => (String.mk p.1, String.mk p.2))

/-- Model of Python `s.split(sep)` for a single separator character. -/
def splitOnCharL (sep : Char) : List Char → List (List Char)
  | [] => [[]]
  | c :: rest =>
    if c == sep then [] :: splitOnCharL sep rest
    else
      match splitOnCharL sep rest with
      | [] => [[c]]
      | p :: ps => (c :: p) :: ps

/-- String version of `splitOnCharL`. -/
def splitOnChar (sep : Char) (s : String) : List String :=
  (splitOnCharL sep s.toList).map String.mk

/-- Split at characters satisfying `p`, keeping empty pieces. -/
def splitPredL (p : Char → Bool) : List Char → List (List Char)
  | [] => [[]]
  | c :: rest =>
    if p c then [] :: splitPredL p rest
    else
      match splitPredL p rest with
      | [] => [[c]]
      | q :: qs => (c :: q) :: qs

/-- Model of the no-argument Python `s.split()`: split at whitespace runs,
discarding empty pieces. -/
def splitWs (s : String) : List String :=
  ((splitPredL Char.isWhitespace s.toList).map String.mk).filter (fun t => t ≠ "")

/-- Model of Python `int(s)`: an optional sign followed by decimal digits
(digit-grouping underscores and non-ASCII digits are not modelled);
`none` models a raised `ValueError`. -/
def pyInt (s : String) : Option Int :=
  let digitsVal : List Char → Nat := fun ds =>
    ds.foldl (fun acc c => acc * 10 + (c.toNat - '0'.toNat)) 0
  match s.toList with
  | [] => none
  | '-' :: ds =>
    if ds ≠ [] ∧ ds.all Char.isDigit then some (-(digitsVal ds : Int)) else none
  | '+' :: ds =>
    if ds ≠ [] ∧ ds.all Char.isDigit then some ((digitsVal ds : Int)) else none
  | ds =>
    if ds ≠ [] ∧ ds.all Char.isDigit then some ((digitsVal ds : Int)) else none

/-! ## URL primitives

Models of the `urllib.parse` helpers, restricted to the URL shapes the
scripts produce: absolute http(s) URLs, protocol-relative, root-relative
and plain relative references without dot segments. -/

/-- Model of `urlparse(u).path`: the fragment and query are cut off and the
scheme and authority are dropped. -/
def urlPath (u : String) : String :=
  let u := (splitOnChar '#' u).headD ""
  let u := (splitOnChar '?' u).headD ""
  match splitFirst u "://" with
  | none => u
  | some (_, after) => String.mk (after.toList.dropWhile (fun c => c ≠ '/'))

/-- Scheme of an absolute URL ("https" for the bases used here). -/
def schemeOf (base : String) : String :=
  match splitFirst base "://" with
  | none => ""
  | some (sch, _) => sch

/-- The scheme plus authority of an absolute URL, without a trailing slash. -/
def originOf (base : String) : String :=
  match splitFirst base "://" with
  | none => ""
  | some (sch, after) => sch ++ "://" ++ String.mk (after.toList.takeWhile (fun c => c ≠ '/'))

/-- Everything up to and including the last slash of `base`. -/
def dirOf (base : String) : String :=
  String.mk ((base.toList.reverse.dropWhile (fun c => c ≠ '/')).reverse)

/-- Model of `urllib.parse.urljoin`, restricted to the reference shapes used
by the scripts (no dot-segment resolution). -/
def urljoin (base u : String) : String :=
  if strStarts u "http://" || strStarts u "https://" then u
  else if strStarts u "//" then schemeOf base ++ ":" ++ u
  else if strStarts u "/" then originOf base ++ u
  else if u = "" then base
  else dirOf base ++ u

/-! ## wga-parser.py: URL helpers and identifier normalization -/

/-- Model of `BASE_URL` of `wga-parser.py`. -/
def BASE_URL : String := "https://www.wga.hu/"

/-- Model of `unwrap_wga_frames` of `wga-parser.py`. -/
def unwrapWgaFrames (url : String) : String :=
  let u := strTrim url
  if strContains u "/frames" && strContains u "?" then
    let inner :=
      match splitFirst u "?" with
      | some (_, after) => after
      | none => ""
    let inner := if strStarts inner "//" then String.mk (inner.toList.drop 1) else inner
    let inner := if strStarts inner "/" then inner else "/" ++ inner
    urljoin BASE_URL inner
  else urljoin BASE_URL u

/-- Model of `is_html_work_page` of `wga-parser.py`. -/
def isHtmlWorkPage (u : String) : Bool :=
  let u := strLower u
  strContains u "/html/" && strEnds u ".html" && !strEnds u "/index.html" &&
    !strContains u "frames"

/-- Model of `is_html_index_page` of `wga-parser.py`. -/
def isHtmlIndexPage (u : String) : Bool :=
  let u := strLower u
  strContains u "/html/" && strEnds u "/index.html" && !strContains u "frames"

/-- Model of `ext_from_url` of `wga-parser.py`: first matching path suffix in the fixed
list, defaulting to ".jpg". -/
def extFromUrl (u : String) : String :=
  if strEnds (strLower (urlPath u)) ".jpg" then ".jpg"
  else if strEnds (strLower (urlPath u)) ".jpeg" then ".jpeg"
  else if strEnds (strLower (urlPath u)) ".png" then ".png"
  else if strEnds (strLower (urlPath u)) ".webp" then ".webp"
  else if strEnds (strLower (urlPath u)) ".gif" then ".gif"
  else ".jpg"

/-- The part of `a` before its last slash; `a` itself when it has no slash.
Models `a.rsplit("/", 1)[0]`. -/
def beforeLastSlash (a : String) : String :=
  if a.toList.contains '/' then
    String.mk (((a.toList.reverse.dropWhile (fun c => c ≠ '/')).drop 1).reverse)
  else a

/-- Model of `same_artist_folder` of `wga-parser.py`. -/
def sameArtistFolder (artistIndexUrl candidateUrl : String) : Bool :=
  let a := urlPath artistIndexUrl
  let c := urlPath candidateUrl
  let artistDir := beforeLastSlash a ++ "/"
  strStarts c artistDir

/-- The character class kept by `to_lowercase_identifier`: `[a-z0-9_]`. -/
def isSlugChar (c : Char) : Bool :=
  (decide ('a' ≤ c) && decide (c ≤ 'z')) || c.isDigit || c == '_'

/-- Replace each maximal whitespace run by a single underscore; models
`re.sub(r"\s+", "_", s)`.  The flag records whether the previous character
was part of a whitespace run. -/
def collapseWs : Bool → List Char → List Char
  | _, [] => []
  | prevWs, c :: rest =>
    if c.isWhitespace then
      if prevWs then collapseWs true rest
      else '_' :: collapseWs true rest
    else c :: collapseWs false rest

/-- Model of `to_lowercase_identifier` of `wga-parser.py`: strip, lowercase, turn
whitespace runs into underscores, delete everything outside `[a-z0-9_]`,
and fall back to "unknown" when nothing is left. -/
def toLowercaseIdentifier (s : String) : String :=
  let s1 := strLower (strTrim s)
  let s2 := String.mk (collapseWs false s1.toList)
  let s3 := String.mk (s2.toList.filter isSlugChar)
  if s3 = "" then "unknown" else s3

/-- Model of `PROF_KEYWORDS` of `wga-parser.py`. -/
def PROF_KEYWORDS : List String :=
  ["painter", "sculptor", "architect", "engraver", "printmaker",
   "draughtsman", "illuminator", "miniaturist", "potter", "goldsmith"]

/-- A regex word character, as used by the `\b` boundaries in
`extract_profession_from_school` (ASCII fragment). -/
def isWordChar (c : Char) : Bool := c.isAlphanum || c == '_'

/-- Model of `extract_profession_from_school` of `wga-parser.py`: the first keyword
occurring as a whole word in the lowercased school text, else "unknown".
The word-boundary regex search is modelled by splitting at non-word
characters. -/
def extractProfessionFromSchool (schoolText : String) : String :=
  let words := (splitPredL (fun c => !isWordChar c) (strLower schoolText).toList).map String.mk
  ((PROF_KEYWORDS.find? (fun p => words.contains p)).getD "unknown")

/-! ## modern-image-parser.py: source-set selection -/

/-- The token list of one comma-separated srcset entry: the entry is stripped
and split at whitespace, as by `part.strip()` / `part.split()`. -/
def srcsetToks (part : String) : List String := splitWs (strTrim part)

/-- The width that `parse_srcset_max` assigns to the tokens after the URL:
the integer of a trailing `…w` descriptor, 0 when the descriptor is absent
or unparsable. -/
def tokWidth (rest : List String) : Int :=
  match rest with
  | [] => 0
  | t :: _ =>
    if strEnds t "w" then (pyInt (String.mk (t.toList.dropLast))).getD 0 else 0

/-- The width `parse_srcset_max` computes for one srcset entry. -/
def partWidth (part : String) : Int :=
  match srcsetToks part with
  | [] => 0
  | _ :: rest => tokWidth rest

/-- The URL token of one srcset entry. -/
def partUrl (part : String) : String := (srcsetToks part).headD ""

/-- Whether an srcset entry carries a width descriptor (a second token
ending in "w"). -/
def hasWidthDesc (part : String) : Bool :=
  match srcsetToks part with
  | _ :: t :: _ => strEnds t "w"
  | _ => false

/-- One iteration of the `parse_srcset_max` loop: skip blank entries, parse
the width, and keep the entry when its width is at least the best so far. -/
def srcsetStep (best : Option String × Int) (part : String) : Option String × Int :=
  match srcsetToks part with
  | [] => best
  | u :: rest =>
    let w := tokWidth rest
    if best.2 ≤ w then (some u, w) else best

/-- Model of `parse_srcset_max` of `modern-image-parser.py`. -/
def parseSrcsetMax (srcset : String) : Option String :=
  if srcset = "" then none
  else ((splitOnChar ',' srcset).foldl srcsetStep (none, -1)).1

/-! ## modern-image-parser.py: extension selection and image persistence -/

/-- Model of `IMG_EXT_ALLOW` of `modern-image-parser.py`. -/
def IMG_EXT_ALLOW : List String := [".jpg", ".jpeg", ".png", ".webp"]

/-- Model of `re.search(r"\.(jpg|jpeg|png|webp)(?:$|\?)", path, re.I)`: a
urlparse path contains no question mark, so the pattern matches exactly
when the lowercased path ends with one of the four extensions, and the
captured group is that extension. -/
def extSearch (path : String) : Option String :=
  if strEnds (strLower path) ".jpg" then some "jpg"
  else if strEnds (strLower path) ".jpeg" then some "jpeg"
  else if strEnds (strLower path) ".png" then some "png"
  else if strEnds (strLower path) ".webp" then some "webp"
  else none

/-- Model of `guess_ext_from_url_or_ct` of `modern-image-parser.py`. -/
def guessExtFromUrlOrCt (url contentType : String) : String :=
  let fromUrl : Option String :=
    if url ≠ "" then
      match extSearch (urlPath url) with
      | some e => some (if e = "jpg" then ".jpeg" else "." ++ e)
      | none => none
    else none
  match fromUrl with
  | some ext => ext
  | none =>
    if contentType ≠ "" then
      let ct := strLower contentType
      if strContains ct "jpeg" || strContains ct "jpg" then ".jpeg"
      else if strContains ct "png" then ".png"
      else if strContains ct "webp" then ".webp"
      else ".jpeg"
    else ".jpeg"

/-- Result of the modelled `download_image`: the returned path, the
filesystem after the call (paths mapped to sizes), and the number of body
bytes that travelled over the network during the call. -/
structure DlResult where
  path : Option String
  fs : List (String × Nat)
  netBytes : Nat
deriving DecidableEq, Repr

/-- Overwrite-or-append update of the modelled filesystem. -/
def fsWrite (fs : List (String × Nat)) (p : String) (size : Nat) : List (String × Nat) :=
  if (fs.lookup p).isSome then fs.map (fun q => if q.1 = p then (p, size) else q)
  else fs ++ [(p, size)]

/-- Model of `download_image` of `modern-image-parser.py`.  `gb` is the outcome of
`get_bytes(image_url)` — `none` models the `(None, None)` failure pair;
otherwise the body bytes and content type.  `writeOk` tells whether
`path.write_bytes` would succeed.  The fetch happens before the
existence check, exactly as in the source. -/
def downloadImage (gb : Option (List Nat × String)) (imageUrl outDir baseName : String)
    (fs : List (String × Nat)) (writeOk : Bool) : DlResult :=
  match gb with
  | none => ⟨none, fs, 0⟩
  | some (data, ct) =>
    if data = [] then ⟨none, fs, 0⟩
    else
      let ext := guessExtFromUrlOrCt imageUrl ct
      let ext := if (strLower ext) ∈ IMG_EXT_ALLOW then ext else ".jpeg"
      let fname := baseName ++ ext
      let path := outDir ++ "/" ++ fname
      let existingNonEmpty : Bool :=
        match fs.lookup path with
        | some sz => decide (0 < sz)
        | none => false
      if existingNonEmpty then ⟨some path, fs, data.length⟩
      else if writeOk then ⟨some path, fsWrite fs path data.length, data.length⟩
      else ⟨none, fs, data.length⟩

/-! ## modern-image-parser.py: retrying fetch loops

`get_html` and `get_bytes` are loops over attempt indices; an attempt is an
oracle value (`none` models a raised transport exception).  The returned
list records the inter-attempt sleeps of the `time.sleep(0.5 * (i + 1))`
line, in milliseconds; the settle delay taken after a success is jittered
by `random.uniform` and is not part of the retry backoff, so it is not
recorded. -/

/-- The loop of `get_html`, from attempt `i` with `rem` attempts left.  An
attempt succeeds when the response is status 200 with non-empty text. -/
def getHtmlLoop (responses : Nat → Option (Nat × String)) : Nat → Nat → Option String × List Nat
  | _, 0 => (none, [])
  | i, Nat.succ rem =>
    let ok : Bool :=
      match responses i with
      | some (code, text) => code == 200 && text != ""
      | none => false
    if ok then ((responses i).map Prod.snd, [])
    else
      let r := getHtmlLoop responses (i + 1) rem
      (r.1, 500 * (i + 1) :: r.2)

/-- Model of `get_html` of `modern-image-parser.py` with its default `retries=3`. -/
def getHtml (responses : Nat → Option (Nat × String)) : Option String × List Nat :=
  getHtmlLoop responses 0 3

/-- The loop of `get_bytes`: an attempt succeeds on any status-200 response,
returning the body and the Content-Type header. -/
def getBytesLoop (responses : Nat → Option (Nat × List Nat × String)) :
    Nat → Nat → Option (List Nat × String) × List Nat
  | _, 0 => (none, [])
  | i, Nat.succ rem =>
    match responses i with
    | some (code, data, ct) =>
      if code = 200 then (some (data, ct), [])
      else
        let r := getBytesLoop responses (i + 1) rem
        (r.1, 500 * (i + 1) :: r.2)
    | none =>
      let r := getBytesLoop responses (i + 1) rem
      (r.1, 500 * (i + 1) :: r.2)

/-- Model of `get_bytes` of `modern-image-parser.py` with its default `retries=3`;
the `none` result models the `(None, None)` return. -/
def getBytesM (responses : Nat → Option (Nat × List Nat × String)) :
    Option (List Nat × String) × List Nat :=
  getBytesLoop responses 0 3

/-! ## wga-parser.py: tenacity-retried fetcher

`Fetcher.get_text` and `Fetcher.get_bytes` are decorated with
`retry(stop=stop_after_attempt(5), wait=wait_exponential(min=…, max=…))`.
Modelled from the tenacity library: the wait after the k-th failed attempt
(k counted from 1) is `2 ^ k` seconds clamped to the configured
`[min, max]` interval, and after the fifth failed attempt the retry
wrapper raises carrying the last error.  Waits are recorded in
milliseconds. -/

/-- The tenacity `wait_exponential(min=minW, max=maxW)` wait after failed
attempt `k`, in milliseconds. -/
def expWaitMs (minW maxW k : Nat) : Nat := 1000 * min maxW (max minW (2 ^ k))

/-- The retry loop shared by the wga fetcher methods: up to `rem` further
attempts starting at attempt index `i`.  Also returns the wait trace. -/
def tenacityLoop (minW maxW : Nat) (responses : Nat → Except String String) :
    Nat → Nat → Except String String × List Nat
  | _, 0 => (.error "", [])
  | i, Nat.succ rem =>
    match responses i with
    | .ok t => (.ok t, [])
    | .error e =>
      if rem = 0 then (.error e, [])
      else
        let r := tenacityLoop minW maxW responses (i + 1) rem
        (r.1, expWaitMs minW maxW (i + 1) :: r.2)

/-- Model of `Fetcher.get_text` of `wga-parser.py`: 5 attempts, waits clamped to
[1, 20] seconds. -/
def fetcherGetText (responses : Nat → Except String String) : Except String String × List Nat :=
  tenacityLoop 1 20 responses 0 5

/-- Model of `Fetcher.get_bytes` of `wga-parser.py`: 5 attempts, waits clamped to
[1, 30] seconds. -/
def fetcherGetBytes (responses : Nat → Except String String) : Except String String × List Nat :=
  tenacityLoop 1 30 responses 0 5

/-! ## wga-parser.py: redirect/frame resolver

`parse_artwork_page` fetches a page, follows meta-refresh and main-frame
indirection for at most three loop iterations, then fetches the final URL
once more and extracts the record from that page.  The fetcher and the
BeautifulSoup extraction helpers are abstracted into an oracle
`fetch : String → WPage` whose fields are the (already absolutized)
results of `_extract_meta_refresh_url`, `_extract_main_frame_url`,
`_extract_image_url` and the metadata table lookup on the page at that
URL. -/

/-- The extraction results for one fetched page. -/
structure WPage where
  refreshUrl : Option String
  mainFrameUrl : Option String
  imageUrl : Option String
  title : String
  date : String
deriving DecidableEq, Repr

/-- An artwork record as returned by `parse_artwork_page`. -/
structure ArtRecord where
  workUrl : String
  imageUrl : String
  title : String
  date : String
deriving DecidableEq, Repr

/-- The rewrite target of one resolver iteration: the unwrapped meta-refresh
URL when it differs from the current URL, else the unwrapped main-frame
URL when that differs, else nothing (the loop breaks). -/
def resolveNext (page : WPage) (url : String) : Option String :=
  let frameTarget : Option String :=
    match page.mainFrameUrl with
    | some mu =>
      let nu := unwrapWgaFrames mu
      if nu ≠ url then some nu else none
    | none => none
  match page.refreshUrl with
  | some r =>
    let nu := unwrapWgaFrames r
    if nu ≠ url then some nu else frameTarget
  | none => frameTarget

/-- The `for _ in range(3)` resolver loop: returns the final working URL and
the list of URLs fetched by the loop, in order. -/
def resolveLoop (fetch : String → WPage) : Nat → String → List String → String × List String
  | 0, url, log => (url, log)
  | Nat.succ n, url, log =>
    let page := fetch url
    let log := log ++ [url]
    match resolveNext page url with
    | some nu => resolveLoop fetch n nu log
    | none => (url, log)

/-- The full outcome of `parse_artwork_page`: the record (none when no image
URL was extracted), the URL whose page was used for extraction, the URLs
fetched by the resolver loop, and every text fetch the call performed. -/
structure ArtworkParse where
  record : Option ArtRecord
  usedUrl : String
  loopLog : List String
  fetchLog : List String
deriving DecidableEq, Repr

/-- Model of `parse_artwork_page` of `wga-parser.py`. -/
def parseArtworkPage (fetch : String → WPage) (workUrl : String) : ArtworkParse :=
  let u0 := unwrapWgaFrames workUrl
  let r := resolveLoop fetch 3 u0 []
  let fin := r.1
  let page := fetch fin
  let record :=
    match page.imageUrl with
    | none => none
    | some img => some (ArtRecord.mk fin img page.title page.date)
  ⟨record, fin, r.2, r.2 ++ [fin]⟩

/-! ## wga-parser.py: BFS over an artist folder

`collect_pages_within_artist` walks index pages inside one artist folder.
The fetch plus link extraction of one page is abstracted as
`links : String → Option (List String)` giving the raw `href` values on
that page (`none` models a fetch that raised and was skipped).  The while
loop is driven by a fuel parameter; the `enqueueLog` records every
`queue.append(href)` and the `seenLog` records processed URLs in
order (`seen.add(url)` immediately precedes the fetch of `url`). -/

/-- Result of the modelled `collect_pages_within_artist`. -/
structure CrawlOutcome where
  workPages : List String
  seenSorted : List String
  seenLog : List String
  enqueueLog : List String
deriving DecidableEq, Repr

/-- Append if not already present (a set insertion that keeps first-insertion
order). -/
def insertIfAbsent (x : String) (l : List String) : List String :=
  if x ∈ l then l else l ++ [x]

/-- Processing of the links found on one index page: for each href, absolutize
and unwrap, keep it only inside the artist folder, collect work pages, and
append unseen index pages to the queue.  Returns the updated work-page
set, the URLs to append to the queue, and the enqueue log entries. -/
def scanHrefs (artistIndexUrl url : String) (seen : List String) :
    List String → List String × List String × List String
  | [] => ([], [], [])
  | h :: rest =>
    let href := unwrapWgaFrames (urljoin url h)
    let r := scanHrefs artistIndexUrl url seen rest
    if !sameArtistFolder artistIndexUrl href then r
    else if isHtmlWorkPage href then (href :: r.1, r.2.1, r.2.2)
    else if isHtmlIndexPage href then
      if href ∉ seen then (r.1, href :: r.2.1, href :: r.2.2) else r
    else r

/-- The BFS while loop of `collect_pages_within_artist`.  One unit of fuel
drives one `queue.pop(0)` iteration; the loop itself stops when the queue
is empty or `maxIndexPages` URLs have been processed. -/
def bfsLoop (links : String → Option (List String)) (maxIndexPages : Nat)
    (artistIndexUrl : String) :
    Nat → List String → List String → List String → List String →
      List String × List String × List String
  | 0, _, seen, works, enq => (works, seen, enq)
  | Nat.succ fuel, queue, seen, works, enq =>
    match queue with
    | [] => (works, seen, enq)
    | url :: rest =>
      if seen.length < maxIndexPages then
        let url := unwrapWgaFrames url
        if url ∈ seen then bfsLoop links maxIndexPages artistIndexUrl fuel rest seen works enq
        else
          let seen := seen ++ [url]
          match links url with
          | none => bfsLoop links maxIndexPages artistIndexUrl fuel rest seen works enq
          | some hrefs =>
            let s := scanHrefs artistIndexUrl url seen hrefs
            bfsLoop links maxIndexPages artistIndexUrl fuel (rest ++ s.2.1)
              seen (s.1.foldl (fun acc w => insertIfAbsent w acc) works) (enq ++ s.2.2)
      else (works, seen, enq)

/-- Model of `collect_pages_within_artist` of `wga-parser.py` (with its returned lists
sorted as by Python `sorted`). -/
def collectPagesWithinArtist (links : String → Option (List String))
    (artistIndexUrl : String) (maxIndexPages fuel : Nat) : CrawlOutcome :=
  let root := unwrapWgaFrames artistIndexUrl
  let r := bfsLoop links maxIndexPages root fuel [root] [] [] []
  ⟨r.1.mergeSort (· ≤ ·), r.2.1.mergeSort (· ≤ ·), r.2.1, r.2.2⟩

/-! ## wga-parser.py: artist listing parser

`parse_artist_cgi_page` walks table rows, keeps those with exactly four
`ARTISTLIST` cells and a link in the first cell, drops rows whose period
(movement) cell is blank, and deduplicates by artist URL with the last
occurrence winning.  The BeautifulSoup step is abstracted: each `<tr>` is
given as its cell texts plus the first link of the first cell. -/

/-- One `<tr>` of the artist.cgi listing, as seen after HTML parsing. -/
structure TrData where
  cells : List String
  linkHref : Option String
  linkText : String
deriving DecidableEq, Repr

/-- One artist entry produced by the listing parser. -/
structure Artist where
  artistName : String
  artistUrl : String
  bornDied : String
  movementRaw : String
  schoolRaw : String
  profession : String
deriving DecidableEq, Repr

/-- The `uniq[r["artist_url"]] = r` deduplication: keys keep first-insertion
order, values are overwritten by later rows. -/
def upsertByUrl (acc : List Artist) (r : Artist) : List Artist :=
  if acc.any (fun x => x.artistUrl == r.artistUrl) then
    acc.map (fun x => if x.artistUrl == r.artistUrl then r else x)
  else acc ++ [r]

/-- One `<tr>` step of `parse_artist_cgi_page`: require four ARTISTLIST
cells and a link, drop blank periods, and append the artist entry. -/
def cgiStep (acc : List Artist) (tr : TrData) : List Artist :=
  if tr.cells.length ≠ 4 then acc
  else
    match tr.linkHref with
    | none => acc
    | some href =>
      if strTrim (tr.cells.getD 2 "") = "" then acc
      else
        acc ++ [Artist.mk tr.linkText (unwrapWgaFrames href) (tr.cells.getD 1 "")
          (tr.cells.getD 2 "") (tr.cells.getD 3 "")
          (extractProfessionFromSchool (tr.cells.getD 3 ""))]

/-- Model of `parse_artist_cgi_page` of `wga-parser.py`. -/
def parseArtistCgiPage (trs : List TrData) : List Artist :=
  (trs.foldl cgiStep []).foldl upsertByUrl []

/-! ## wga-parser.py: dataset assembly

`build_dataset` iterates artists, skips unknown movements and full classes,
crawls the artist folder, and for each work page decides
no-image / duplicate / accept, writing the image file and appending a
manifest row on acceptance.  The per-artist crawl and the per-work parse
plus download are abstracted as oracles:

* `crawl : String → Option (List WorkResult)` maps the normalized artist
  index URL to the outcomes for its sorted work pages (`none` models a
  `collect_pages_within_artist` call that raised);
* a `WorkResult` says whether `parse_artwork_page` raised, found no image,
  or produced a record — and in the last case whether the following
  `get_bytes` + `write_bytes` pair succeeds (`downloadOk = false` models
  the exception caught by the per-page handler, which happens after the
  seen-image set has been updated).

The run starts from a fresh output directory, as after the `mkdir` calls
of the source.  The `crawlLog` and `downloadLog` fields instrument which
artist folders were crawled and which image URLs were downloaded. -/

/-- Outcome of one work page inside the per-page try block. -/
inductive WorkResult where
  | parseError
  | noImage
  | parsed (art : ArtRecord) (downloadOk : Bool)
deriving DecidableEq, Repr

/-- One manifest row of `build_dataset`. -/
structure Row where
  id : String
  movement : String
  movementId : String
  profession : String
  schoolRaw : String
  artistName : String
  artistUrl : String
  workUrl : String
  imageUrl : String
  title : String
  date : String
  localPath : String
deriving DecidableEq, Repr

/-- The mutable run state of `build_dataset`.  `files` holds the written
image files as (movement directory, file name) pairs under `images/`. -/
structure BuildState where
  rows : List Row
  counts : List (String × Nat)
  seenImageUrls : List String
  sampleId : Nat
  files : List (String × String)
  crawlLog : List String
  downloadLog : List String
deriving DecidableEq, Repr

/-- Model of `counts.get(k, 0)` on the association-list form of the counts dict. -/
def getCount : List (String × Nat) → String → Nat
  | [], _ => 0
  | (k, n) :: rest, m => if k = m then n else getCount rest m

/-- Model of `counts[k] = counts.get(k, 0) + 1` on the association-list model. -/
def bumpCount : List (String × Nat) → String → List (String × Nat)
  | [], m => [(m, 1)]
  | (k, n) :: rest, m =>
    if k = m then (k, n + 1) :: rest else (k, n) :: bumpCount rest m

/-- The artist-level fields threaded into each accepted row. -/
structure ArtistCtx where
  movement : String
  movementId : String
  profession : String
  schoolRaw : String
  artistName : String
  artistUrl : String
deriving DecidableEq, Repr

/-- Model of `f"{n:09d}"`: decimal digits left-padded with zeros to width 9. -/
def pad9 (n : Nat) : String :=
  let s := toString n
  String.mk (List.replicate (9 - s.length) '0') ++ s

/-- The body of the per-work-page try block of `build_dataset`, after the
quota guard: no-image and duplicate candidates leave the state unchanged
(apart from the printed counters, which are not modelled); a fresh
candidate enters the seen-image set, is downloaded unless its file
already exists, and becomes a manifest row unless the download raised. -/
def stepWork (ctx : ArtistCtx) (wr : WorkResult) (st : BuildState) :
    BuildState :=
  match wr with
  | .parseError => st
  | .noImage => st
  | .parsed art dlOk =>
    if art.imageUrl ∈ st.seenImageUrls then st
    else
      let seenNow := st.seenImageUrls ++ [art.imageUrl]
      let ext := extFromUrl art.imageUrl
      let imgName := "wga_" ++ pad9 st.sampleId ++ ext
      let localPath := "images/" ++ ctx.movementId ++ "/" ++ imgName
      let row : Row :=
        ⟨"wga_" ++ pad9 st.sampleId, ctx.movement, ctx.movementId, ctx.profession,
          ctx.schoolRaw, ctx.artistName, ctx.artistUrl, art.workUrl, art.imageUrl,
          art.title, art.date, localPath⟩
      if (ctx.movementId, imgName) ∈ st.files then
        { st with rows := st.rows ++ [row], counts := bumpCount st.counts ctx.movementId,
                  seenImageUrls := seenNow, sampleId := st.sampleId + 1 }
      else if dlOk then
        { st with rows := st.rows ++ [row], counts := bumpCount st.counts ctx.movementId,
                  seenImageUrls := seenNow, sampleId := st.sampleId + 1,
                  files := st.files ++ [(ctx.movementId, imgName)],
                  downloadLog := st.downloadLog ++ [art.imageUrl] }
      else
        { st with seenImageUrls := seenNow,
                  downloadLog := st.downloadLog ++ [art.imageUrl] }

/-- The per-artist loop over sorted work pages, with the `break` once the
class counter has reached `max_per_class`. -/
def processWorks (maxPerClass : Nat) (ctx : ArtistCtx) :
    List WorkResult → BuildState → BuildState
  | [], st => st
  | wr :: rest, st =>
    if maxPerClass ≤ getCount st.counts ctx.movementId then st
    else processWorks maxPerClass ctx rest (stepWork ctx wr st)

/-- Python `s.rstrip("/")`. -/
def rstripSlash (s : String) : String :=
  String.mk ((s.toList.reverse.dropWhile (fun c => c == '/')).reverse)

/-- The normalization of the artist index URL in `build_dataset`: unwrap the
frames wrapper and force a trailing `/index.html`. -/
def normalizeArtistUrl (u : String) : String :=
  if strEnds (strLower (unwrapWgaFrames u)) "/index.html" then unwrapWgaFrames u
  else if strEnds (unwrapWgaFrames u) "/" then unwrapWgaFrames u ++ "index.html"
  else rstripSlash (unwrapWgaFrames u) ++ "/index.html"

/-- The body of the per-artist loop of `build_dataset`: unknown movements
and full classes are skipped before any fetch; otherwise the artist index
URL is normalized to end in `/index.html`, the folder is crawled, and its
work pages are processed. -/
def processArtist (maxPerClass : Nat) (crawl : String → Option (List WorkResult))
    (st : BuildState) (a : Artist) : BuildState :=
  if toLowercaseIdentifier (strTrim a.movementRaw) = "unknown" then st
  else if maxPerClass ≤ getCount st.counts (toLowercaseIdentifier (strTrim a.movementRaw)) then
    st
  else
    match crawl (normalizeArtistUrl a.artistUrl) with
    | none => { st with crawlLog := st.crawlLog ++ [normalizeArtistUrl a.artistUrl] }
    | some wrs =>
      processWorks maxPerClass
        ⟨strTrim a.movementRaw, toLowercaseIdentifier (strTrim a.movementRaw), a.profession,
          a.schoolRaw, a.artistName, normalizeArtistUrl a.artistUrl⟩ wrs
        { st with crawlLog := st.crawlLog ++ [normalizeArtistUrl a.artistUrl] }

/-- The artist loop of `build_dataset`, from the fresh post-mkdir state. -/
def buildStateRun (maxPerClass : Nat) (crawl : String → Option (List WorkResult))
    (artists : List Artist) : BuildState :=
  artists.foldl (processArtist maxPerClass crawl) ⟨[], [], [], 0, [], [], []⟩

/-- Model of `df["movement_id"].value_counts()[m]`: the number of manifest rows of
class `m`. -/
def classCount (rows : List Row) (m : String) : Nat :=
  (rows.filter (fun r => r.movementId = m)).length

/-- The manifest rows kept by the minimum-quota purge: rows whose class met
the floor. -/
def purgeRows (minPerClass : Nat) (st : BuildState) : List Row :=
  st.rows.filter (fun r => minPerClass ≤ classCount st.rows r.movementId)

/-- The image files kept by the minimum-quota purge: the per-class image
directories of the dropped classes are emptied. -/
def purgeFiles (minPerClass : Nat) (st : BuildState) : List (String × String) :=
  st.files.filter
    (fun f => ¬ (f.1 ∈ st.rows.map Row.movementId ∧ classCount st.rows f.1 < minPerClass))

/-- Model of `build_dataset` of `wga-parser.py`: the artist loop followed by the
minimum-quota purge, returning the final manifest rows and the image
files left on disk. -/
def buildDataset (minPerClass maxPerClass : Nat) (crawl : String → Option (List WorkResult))
    (artists : List Artist) : List Row × List (String × String) :=
  if (buildStateRun maxPerClass crawl artists).rows ≠ [] ∧ 1 < minPerClass then
    (purgeRows minPerClass (buildStateRun maxPerClass crawl artists),
     purgeFiles minPerClass (buildStateRun maxPerClass crawl artists))
  else ((buildStateRun maxPerClass crawl artists).rows,
        (buildStateRun maxPerClass crawl artists).files)

/-! ## Source-set selection: characterization of the best-entry fold -/

/-- The `parse_srcset_max` fold keeps a running maximum: the final best width
dominates the initial one and the width of every non-blank entry, and the
final pair is either the initial one or comes from some entry of the
list. -/
theorem srcsetFold_char (l : List String) : ∀ (bu : Option String) (bw : Int),
    bw ≤ (l.foldl srcsetStep (bu, bw)).2
  ∧ (∀ p ∈ l, srcsetToks p ≠ [] → partWidth p ≤ (l.foldl srcsetStep (bu, bw)).2)
  ∧ ((l.foldl srcsetStep (bu, bw)) = (bu, bw)
      ∨ ∃ p ∈ l, (l.foldl srcsetStep (bu, bw)).2 = partWidth p
          ∧ (l.foldl srcsetStep (bu, bw)).1 = some (partUrl p)) := by
  induction l with
  | nil => exact fun bu bw => ⟨le_refl _, by simp, Or.inl rfl⟩
  | cons p t ih =>
    intro bu bw
    simp only [List.foldl_cons]
    cases htoks : srcsetToks p with
    | nil =>
      have hstep : srcsetStep (bu, bw) p = (bu, bw) := by simp [srcsetStep, htoks]
      rw [hstep]
      obtain ⟨h1, h2, h3⟩ := ih bu bw
      refine ⟨h1, ?_, ?_⟩
      · intro q hq hqt
        rcases List.mem_cons.1 hq with rfl | hq2
        · exact absurd htoks hqt
        · exact h2 q hq2 hqt
      · rcases h3 with h3 | ⟨q, hq, hwq, huq⟩
        · exact Or.inl h3
        · exact Or.inr ⟨q, List.mem_cons_of_mem _ hq, hwq, huq⟩
    | cons u rest =>
      have hw : partWidth p = tokWidth rest := by simp [partWidth, htoks]
      have hu : partUrl p = u := by simp [partUrl, htoks]
      by_cases hle : bw ≤ tokWidth rest
      · have hstep : srcsetStep (bu, bw) p = (some u, tokWidth rest) := by
          simp [srcsetStep, htoks, hle]
        rw [hstep]
        obtain ⟨h1, h2, h3⟩ := ih (some u) (tokWidth rest)
        refine ⟨le_trans hle h1, ?_, ?_⟩
        · intro q hq hqt
          rcases List.mem_cons.1 hq with rfl | hq2
          · rw [hw]; exact h1
          · exact h2 q hq2 hqt
        · rcases h3 with h3 | ⟨q, hq, hwq, huq⟩
          · exact Or.inr ⟨p, List.mem_cons_self _ _, by rw [h3, hw], by rw [h3, hu]⟩
          · exact Or.inr ⟨q, List.mem_cons_of_mem _ hq, hwq, huq⟩
      · have hstep : srcsetStep (bu, bw) p = (bu, bw) := by
          simp [srcsetStep, htoks, hle]
        rw [hstep]
        obtain ⟨h1, h2, h3⟩ := ih bu bw
        refine ⟨h1, ?_, ?_⟩
        · intro q hq hqt
          rcases List.mem_cons.1 hq with rfl | hq2
          · rw [hw]; exact le_trans (le_of_lt (lt_of_not_le hle)) h1
          · exact h2 q hq2 hqt
        · rcases h3 with h3 | ⟨q, hq, hwq, huq⟩
          · exact Or.inl h3
          · exact Or.inr ⟨q, List.mem_cons_of_mem _ hq, hwq, huq⟩

/-- C6: the selector applied to "a.jpg 480w, b.jpg 1024w, c.jpg 2048w"
returns "c.jpg"; an entry without a width descriptor is given width 0;
and whenever some entry of the source set has positive width, the
selected entry is one with positive width and a width descriptor — so a
descriptor-less entry is never the selected one. -/
theorem c6_srcset_max_selector :
    parseSrcsetMax "a.jpg 480w, b.jpg 1024w, c.jpg 2048w" = some "c.jpg"
  ∧ (∀ part, hasWidthDesc part = false → partWidth part = 0)
  ∧ (∀ srcset, (∃ p ∈ splitOnChar ',' srcset, 0 < partWidth p) →
      ∃ p ∈ splitOnChar ',' srcset,
        0 < partWidth p ∧ hasWidthDesc p = true
          ∧ parseSrcsetMax srcset = some (partUrl p)) := by
  refine ⟨by decide, ?_, ?_⟩
  · intro part hdesc
    unfold hasWidthDesc at hdesc
    unfold partWidth
    cases htoks : srcsetToks part with
    | nil => rfl
    | cons u rest =>
      cases rest with
      | nil => rfl
      | cons tt rr =>
        rw [htoks] at hdesc
        simp only at hdesc
        simp [tokWidth, hdesc]
  · rintro srcset ⟨p0, hp0, hw0⟩
    have hne : srcset ≠ "" := by
      rintro rfl
      have hp0e : p0 = "" := by
        have : splitOnChar ',' "" = [""] := by decide
        rw [this] at hp0
        simpa using hp0
      rw [hp0e] at hw0
      exact absurd hw0 (by decide)
    obtain ⟨h1, h2, h3⟩ := srcsetFold_char (splitOnChar ',' srcset) none (-1)
    have htoksp0 : srcsetToks p0 ≠ [] := by
      intro h
      unfold partWidth at hw0
      rw [h] at hw0
      exact absurd hw0 (by decide)
    have hple := h2 p0 hp0 htoksp0
    have hpos : (0 : Int) < ((splitOnChar ',' srcset).foldl srcsetStep (none, -1)).2 :=
      lt_of_lt_of_le hw0 hple
    rcases h3 with heq | ⟨q, hq, hwq, huq⟩
    · rw [heq] at hpos
      exact absurd hpos (by decide)
    · have hqpos : 0 < partWidth q := hwq ▸ hpos
      refine ⟨q, hq, hqpos, ?_, ?_⟩
      · unfold partWidth at hqpos
        unfold hasWidthDesc
        cases htq : srcsetToks q with
        | nil => rw [htq] at hqpos; exact absurd hqpos (by decide)
        | cons u rest =>
          rw [htq] at hqpos
          simp only at hqpos
          cases rest with
          | nil => exact absurd hqpos (by decide)
          | cons tt rr =>
            by_cases hww : strEnds tt "w" = true
            · simp [hww]
            · rw [Bool.not_eq_true] at hww
              rw [show tokWidth (tt :: rr) = 0 by simp [tokWidth, hww]] at hqpos
              exact absurd hqpos (by decide)
      · unfold parseSrcsetMax
        rw [if_neg hne]
        exact huq

/-- C6 witness: concrete instantiations of the descriptor-less-width and
positive-width clauses. -/
theorem c6_srcset_witness :
    partWidth "b.jpg" = 0
  ∧ ∃ p ∈ splitOnChar ',' "a.jpg, b.jpg 100w",
      0 < partWidth p ∧ hasWidthDesc p = true
        ∧ parseSrcsetMax "a.jpg, b.jpg 100w" = some (partUrl p) :=
  ⟨c6_srcset_max_selector.2.1 "b.jpg" (by decide),
   c6_srcset_max_selector.2.2 "a.jpg, b.jpg 100w" (by decide)⟩

/-! ## Redirect/frame resolver: fetch-count bounds -/

/-- The resolver loop appends at most `n` URLs to the fetch log. -/
theorem resolveLoop_log (fetch : String → WPage) :
    ∀ (n : Nat) (url : String) (log : List String),
      ∃ l, (resolveLoop fetch n url log).2 = log ++ l ∧ l.length ≤ n := by
  intro n
  induction n with
  | zero => exact fun url log => ⟨[], by simp [resolveLoop], by simp⟩
  | succ n ih =>
    intro url log
    unfold resolveLoop
    cases hnext : resolveNext (fetch url) url with
    | none =>
      exact ⟨[url], by simp [hnext], by simp⟩
    | some nu =>
      obtain ⟨l, hl, hlen⟩ := ih nu (log ++ [url])
      refine ⟨url :: l, ?_, by simpa using Nat.succ_le_succ hlen⟩
      simp only [hnext]
      rw [hl]
      simp

/-- C7: for every fetch oracle and start URL — including pages that redirect
to themselves or cycle between two URLs — the resolver performs at most 3
loop iterations (so at most 4 text fetches in total), and content
extraction uses the page of the last fetched URL, regardless of any
redirect directive still present on it. -/
theorem c7_resolver_bounded (fetch : String → WPage) (workUrl : String) :
    (parseArtworkPage fetch workUrl).loopLog.length ≤ 3
  ∧ (parseArtworkPage fetch workUrl).fetchLog.length ≤ 4
  ∧ (parseArtworkPage fetch workUrl).fetchLog.getLast?
      = some (parseArtworkPage fetch workUrl).usedUrl
  ∧ (parseArtworkPage fetch workUrl).record
      = (match (fetch (parseArtworkPage fetch workUrl).usedUrl).imageUrl with
         | none => none
         | some img => some (ArtRecord.mk (parseArtworkPage fetch workUrl).usedUrl img
             (fetch (parseArtworkPage fetch workUrl).usedUrl).title
             (fetch (parseArtworkPage fetch workUrl).usedUrl).date)) := by
  obtain ⟨l, hl, hlen⟩ := resolveLoop_log fetch 3 (unwrapWgaFrames workUrl) []
  have hll : (parseArtworkPage fetch workUrl).loopLog
      = (resolveLoop fetch 3 (unwrapWgaFrames workUrl) []).2 := rfl
  have hfl : (parseArtworkPage fetch workUrl).fetchLog
      = (resolveLoop fetch 3 (unwrapWgaFrames workUrl) []).2
        ++ [(resolveLoop fetch 3 (unwrapWgaFrames workUrl) []).1] := rfl
  have husd : (parseArtworkPage fetch workUrl).usedUrl
      = (resolveLoop fetch 3 (unwrapWgaFrames workUrl) []).1 := rfl
  refine ⟨?_, ?_, ?_, rfl⟩
  · rw [hll, hl]; simpa using hlen
  · rw [hfl, hl]
    simp only [List.nil_append, List.length_append, List.length_cons, List.length_nil]
    omega
  · rw [hfl, husd]
    rw [List.getLast?_concat]

/-- C3 counterexample: on a page that is already terminal (no meta-refresh,
no main frame) `parse_artwork_page` performs two text fetches, not one —
the resolver loop fetch and the re-fetch before extraction. -/
theorem c3_terminal_single_fetch_fails :
    (parseArtworkPage
        (fun _ => WPage.mk none none (some "https://www.wga.hu/art/a/art1.jpg") "T" "D")
        "https://www.wga.hu/html/a/art/work1.html").fetchLog.length = 2
  ∧ ¬ ((parseArtworkPage
        (fun _ => WPage.mk none none (some "https://www.wga.hu/art/a/art1.jpg") "T" "D")
        "https://www.wga.hu/html/a/art/work1.html").fetchLog.length = 1) :=
  ⟨by rfl, by decide⟩

/-- C3 amended: resolving a URL whose page declares neither a meta-refresh
directive nor a main-content frame runs exactly one resolver iteration
and performs exactly two text fetches, both of the same (unwrapped) URL,
and extraction uses the page at that URL. -/
theorem c3_terminal_two_fetches (fetch : String → WPage) (workUrl : String)
    (hr : (fetch (unwrapWgaFrames workUrl)).refreshUrl = none)
    (hf : (fetch (unwrapWgaFrames workUrl)).mainFrameUrl = none) :
    (parseArtworkPage fetch workUrl).fetchLog
      = [unwrapWgaFrames workUrl, unwrapWgaFrames workUrl]
  ∧ (parseArtworkPage fetch workUrl).usedUrl = unwrapWgaFrames workUrl
  ∧ (parseArtworkPage fetch workUrl).loopLog.length = 1 := by
  have hnext : resolveNext (fetch (unwrapWgaFrames workUrl)) (unwrapWgaFrames workUrl) = none := by
    unfold resolveNext
    rw [hr, hf]
  have hloop : resolveLoop fetch 3 (unwrapWgaFrames workUrl) []
      = (unwrapWgaFrames workUrl, [unwrapWgaFrames workUrl]) := by
    simp [resolveLoop, hnext]
  refine ⟨?_, ?_, ?_⟩
  · show (resolveLoop fetch 3 (unwrapWgaFrames workUrl) []).2
        ++ [(resolveLoop fetch 3 (unwrapWgaFrames workUrl) []).1] = _
    rw [hloop]
    rfl
  · show (resolveLoop fetch 3 (unwrapWgaFrames workUrl) []).1 = _
    rw [hloop]
  · show (resolveLoop fetch 3 (unwrapWgaFrames workUrl) []).2.length = 1
    rw [hloop]
    rfl

/-- C3 witness: the amended statement at a concrete terminal oracle. -/
theorem c3_terminal_witness :
    (parseArtworkPage
        (fun _ => WPage.mk none none (some "https://www.wga.hu/art/a/art2.jpg") "T2" "D2")
        "https://www.wga.hu/html/a/art/work2.html").fetchLog
      = [unwrapWgaFrames "https://www.wga.hu/html/a/art/work2.html",
         unwrapWgaFrames "https://www.wga.hu/html/a/art/work2.html"]
  ∧ (parseArtworkPage
        (fun _ => WPage.mk none none (some "https://www.wga.hu/art/a/art2.jpg") "T2" "D2")
        "https://www.wga.hu/html/a/art/work2.html").usedUrl
      = unwrapWgaFrames "https://www.wga.hu/html/a/art/work2.html"
  ∧ (parseArtworkPage
        (fun _ => WPage.mk none none (some "https://www.wga.hu/art/a/art2.jpg") "T2" "D2")
        "https://www.wga.hu/html/a/art/work2.html").loopLog.length = 1 :=
  c3_terminal_two_fetches
    (fun _ => WPage.mk none none (some "https://www.wga.hu/art/a/art2.jpg") "T2" "D2")
    "https://www.wga.hu/html/a/art/work2.html" rfl rfl

/-! ## Artist-folder BFS: processing discipline -/

/-- Appending an element not in a duplicate-free list keeps it
duplicate-free. -/
theorem nodup_append_one {α : Type} [DecidableEq α] {l : List α} {a : α}
    (h : l.Nodup) (ha : a ∉ l) : (l ++ [a]).Nodup := by
  simp [List.nodup_append, h, ha]

/-- The BFS loop only grows the processed list by URLs not already in it, so
a duplicate-free processed list stays duplicate-free. -/
theorem bfsLoop_seen_nodup (links : String → Option (List String)) (maxP : Nat)
    (root : String) :
    ∀ (fuel : Nat) (queue seen works enq : List String), seen.Nodup →
      (bfsLoop links maxP root fuel queue seen works enq).2.1.Nodup := by
  intro fuel
  induction fuel with
  | zero => intro queue seen works enq h; exact h
  | succ fuel ih =>
    intro queue seen works enq h
    match queue with
    | [] => exact h
    | url :: rest =>
      have heq : bfsLoop links maxP root (fuel + 1) (url :: rest) seen works enq
          = if seen.length < maxP then
              (if unwrapWgaFrames url ∈ seen then
                bfsLoop links maxP root fuel rest seen works enq
              else
                match links (unwrapWgaFrames url) with
                | none =>
                  bfsLoop links maxP root fuel rest (seen ++ [unwrapWgaFrames url]) works enq
                | some hrefs =>
                  bfsLoop links maxP root fuel
                    (rest ++ (scanHrefs root (unwrapWgaFrames url)
                        (seen ++ [unwrapWgaFrames url]) hrefs).2.1)
                    (seen ++ [unwrapWgaFrames url])
                    ((scanHrefs root (unwrapWgaFrames url)
                        (seen ++ [unwrapWgaFrames url]) hrefs).1.foldl
                      (fun acc w => insertIfAbsent w acc) works)
                    (enq ++ (scanHrefs root (unwrapWgaFrames url)
                        (seen ++ [unwrapWgaFrames url]) hrefs).2.2))
            else (works, seen, enq) := rfl
      rw [heq]
      by_cases hlen : seen.length < maxP
      · rw [if_pos hlen]
        by_cases hmem : unwrapWgaFrames url ∈ seen
        · rw [if_pos hmem]
          exact ih rest seen works enq h
        · rw [if_neg hmem]
          have h2 : (seen ++ [unwrapWgaFrames url]).Nodup := nodup_append_one h hmem
          cases links (unwrapWgaFrames url) with
          | none => exact ih rest _ works enq h2
          | some hrefs => exact ih _ _ _ _ h2
      · rw [if_neg hlen]
        exact h

/-- C5 amended: in every traversal of an artist folder, each normalized URL
is processed (added to the visited set and fetched) at most once — the
processed list contains no duplicates, both as accumulated and as
returned sorted. -/
theorem c5_processed_at_most_once (links : String → Option (List String))
    (artistIndexUrl : String) (maxIndexPages fuel : Nat) :
    (collectPagesWithinArtist links artistIndexUrl maxIndexPages fuel).seenLog.Nodup
  ∧ (collectPagesWithinArtist links artistIndexUrl maxIndexPages fuel).seenSorted.Nodup := by
  have h := bfsLoop_seen_nodup links maxIndexPages (unwrapWgaFrames artistIndexUrl)
    fuel [unwrapWgaFrames artistIndexUrl] [] [] [] List.nodup_nil
  refine ⟨h, ?_⟩
  have hperm := List.mergeSort_perm
    (bfsLoop links maxIndexPages (unwrapWgaFrames artistIndexUrl) fuel
      [unwrapWgaFrames artistIndexUrl] [] [] []).2.1 (· ≤ ·)
  exact hperm.symm.nodup h

/-- C5 counterexample: with two index pages that both link to a third, the
third page is appended to the frontier queue twice — an entry is not
enqueued at most once; the visited set only prevents the second
processing. -/
theorem c5_enqueued_twice :
    (collectPagesWithinArtist
      (fun u =>
        if u = "https://www.wga.hu/html/a/art/index.html" then
          some ["https://www.wga.hu/html/a/art/x/index.html",
                "https://www.wga.hu/html/a/art/y/index.html"]
        else if u = "https://www.wga.hu/html/a/art/x/index.html" then
          some ["https://www.wga.hu/html/a/art/z/index.html"]
        else if u = "https://www.wga.hu/html/a/art/y/index.html" then
          some ["https://www.wga.hu/html/a/art/z/index.html"]
        else some [])
      "https://www.wga.hu/html/a/art/index.html" 50 10).enqueueLog.count
        "https://www.wga.hu/html/a/art/z/index.html" = 2
  ∧ ¬ ((collectPagesWithinArtist
      (fun u =>
        if u = "https://www.wga.hu/html/a/art/index.html" then
          some ["https://www.wga.hu/html/a/art/x/index.html",
                "https://www.wga.hu/html/a/art/y/index.html"]
        else if u = "https://www.wga.hu/html/a/art/x/index.html" then
          some ["https://www.wga.hu/html/a/art/z/index.html"]
        else if u = "https://www.wga.hu/html/a/art/y/index.html" then
          some ["https://www.wga.hu/html/a/art/z/index.html"]
        else some [])
      "https://www.wga.hu/html/a/art/index.html" 50 10).enqueueLog.count
        "https://www.wga.hu/html/a/art/z/index.html" ≤ 1) := by
  constructor
  · rfl
  · decide

/-! ## Retry loops: backoff shape and failure value -/

/-- C8 counterexample: when every attempt fails, `get_html` of
`modern-image-parser.py` sleeps 500, 1000, 1500 milliseconds between
attempts — an arithmetic, not geometric, progression — and returns
`None`, a bare sentinel carrying no error or status. -/
theorem c8_exponential_backoff_fails :
    getHtml (fun _ => none) = (none, [500, 1000, 1500])
  ∧ (1000 - 500 : Nat) = 1500 - 1000
  ∧ ¬ ((500 * 1500 : Nat) = 1000 * 1000) := by
  refine ⟨rfl, rfl, by decide⟩

/-- C8 amended: when every attempt fails, the modern-parser text and byte
fetches perform 3 attempts with linearly increasing backoff and return
the bare failure sentinel, while the wga fetcher methods perform 5
attempts with exponentially increasing (clamped) backoff and fail
carrying the error of the last attempt. -/
theorem c8_retry_traces (resp : Nat → Option (Nat × String))
    (bresp : Nat → Option (Nat × List Nat × String))
    (tresp : Nat → Except String String) (msgs : Nat → String)
    (hresp : ∀ i, resp i = none) (hbresp : ∀ i, bresp i = none)
    (htresp : ∀ i, tresp i = .error (msgs i)) :
    getHtml resp = (none, [500, 1000, 1500])
  ∧ getBytesM bresp = (none, [500, 1000, 1500])
  ∧ fetcherGetText tresp = (.error (msgs 4), [2000, 4000, 8000, 16000])
  ∧ fetcherGetBytes tresp = (.error (msgs 4), [2000, 4000, 8000, 16000]) := by
  refine ⟨?_, ?_, ?_, ?_⟩
  · show getHtmlLoop resp 0 3 = (none, [500, 1000, 1500])
    simp [getHtmlLoop, hresp]
  · show getBytesLoop bresp 0 3 = (none, [500, 1000, 1500])
    simp [getBytesLoop, hbresp]
  · show tenacityLoop 1 20 tresp 0 5 = (.error (msgs 4), [2000, 4000, 8000, 16000])
    simp [tenacityLoop, htresp, expWaitMs]
  · show tenacityLoop 1 30 tresp 0 5 = (.error (msgs 4), [2000, 4000, 8000, 16000])
    simp [tenacityLoop, htresp, expWaitMs]

/-- C8 witness: the amended statement at the always-failing oracles. -/
theorem c8_retry_witness :
    getHtml (fun _ => none) = (none, [500, 1000, 1500])
  ∧ getBytesM (fun _ => none) = (none, [500, 1000, 1500])
  ∧ fetcherGetText (fun i => .error (toString i))
      = (.error (toString 4), [2000, 4000, 8000, 16000])
  ∧ fetcherGetBytes (fun i => .error (toString i))
      = (.error (toString 4), [2000, 4000, 8000, 16000]) :=
  c8_retry_traces (fun _ => none) (fun _ => none) (fun i => .error (toString i))
    (fun i => toString i) (fun _ => rfl) (fun _ => rfl) (fun _ => rfl)

/-! ## Image persistence: idempotence of the write, not of the fetch -/

/-- The extension `download_image` actually uses: the guessed extension,
coerced to ".jpeg" when outside the allow list. -/
def dlExt (imageUrl ct : String) : String :=
  let e := guessExtFromUrlOrCt imageUrl ct
  if (strLower e) ∈ IMG_EXT_ALLOW then e else ".jpeg"

/-- C4 counterexample: storing an image whose derived file already exists
non-empty still transfers the body over the network — `download_image`
fetches before checking existence — even though it returns the existing
path and leaves the file untouched. -/
theorem c4_zero_bytes_fails :
    downloadImage (some (List.replicate 7 0, "image/jpeg")) "https://example.com/a.jpg"
        "tate_images" "b" [("tate_images/b.jpeg", 5)] true
      = ⟨some "tate_images/b.jpeg", [("tate_images/b.jpeg", 5)], 7⟩
  ∧ ¬ ((downloadImage (some (List.replicate 7 0, "image/jpeg")) "https://example.com/a.jpg"
        "tate_images" "b" [("tate_images/b.jpeg", 5)] true).netBytes = 0) := by
  refine ⟨by rfl, by decide⟩

/-- C4 amended: when the fetch succeeds with a non-empty body and the derived
file exists non-empty, `download_image` returns that same path and leaves
the filesystem unchanged (the file is never rewritten), but the body
bytes are transferred; and in the wga dataset builder an already-existing
local file skips the download entirely (no download-log entry, no file
write). -/
theorem c4_existing_file_not_rewritten :
    (∀ (data : List Nat) (ct imageUrl outDir baseName : String)
        (fs : List (String × Nat)) (writeOk : Bool) (sz : Nat),
      data ≠ [] →
      fs.lookup (outDir ++ "/" ++ (baseName ++ dlExt imageUrl ct)) = some sz →
      0 < sz →
      downloadImage (some (data, ct)) imageUrl outDir baseName fs writeOk
        = ⟨some (outDir ++ "/" ++ (baseName ++ dlExt imageUrl ct)), fs, data.length⟩)
  ∧ (∀ (ctx : ArtistCtx) (art : ArtRecord) (dlOk : Bool) (st : BuildState),
      art.imageUrl ∉ st.seenImageUrls →
      (ctx.movementId, "wga_" ++ pad9 st.sampleId ++ extFromUrl art.imageUrl) ∈ st.files →
      (stepWork ctx (.parsed art dlOk) st).files = st.files
      ∧ (stepWork ctx (.parsed art dlOk) st).downloadLog = st.downloadLog
      ∧ (stepWork ctx (.parsed art dlOk) st).rows = st.rows ++
          [⟨"wga_" ++ pad9 st.sampleId, ctx.movement, ctx.movementId, ctx.profession,
            ctx.schoolRaw, ctx.artistName, ctx.artistUrl, art.workUrl, art.imageUrl,
            art.title, art.date,
            "images/" ++ ctx.movementId ++ "/"
              ++ ("wga_" ++ pad9 st.sampleId ++ extFromUrl art.imageUrl)⟩]) := by
  constructor
  · intro data ct imageUrl outDir baseName fs writeOk sz hdata hlook hsz
    have hlook2 : fs.lookup (outDir ++ "/" ++ (baseName ++
        (if (strLower (guessExtFromUrlOrCt imageUrl ct)) ∈ IMG_EXT_ALLOW then
          guessExtFromUrlOrCt imageUrl ct else ".jpeg"))) = some sz := by
      rw [show (if (strLower (guessExtFromUrlOrCt imageUrl ct)) ∈ IMG_EXT_ALLOW then
          guessExtFromUrlOrCt imageUrl ct else ".jpeg") = dlExt imageUrl ct from rfl]
      exact hlook
    simp only [downloadImage, hdata, if_false, reduceCtorEq]
    rw [show dlExt imageUrl ct = (if (strLower (guessExtFromUrlOrCt imageUrl ct)) ∈
        IMG_EXT_ALLOW then guessExtFromUrlOrCt imageUrl ct else ".jpeg") from rfl]
    simp [hlook2, hsz, hdata]
  · intro ctx art dlOk st hseen hfile
    simp only [stepWork]
    rw [if_neg hseen, if_pos hfile]
    exact ⟨rfl, rfl, rfl⟩

/-- C4 witness: the amended statement at concrete inputs — an existing
non-empty file on the modern-parser side, and an existing image file in
the builder state on the wga side. -/
theorem c4_store_witness :
    downloadImage (some ([1, 2, 3], "image/png")) "https://example.com/p.png"
        "tate_images" "w" [("tate_images/w.png", 9)] false
      = ⟨some "tate_images/w.png", [("tate_images/w.png", 9)], 3⟩
  ∧ (stepWork ⟨"Baroque", "baroque", "painter", "s", "n", "u"⟩
        (.parsed ⟨"w", "https://www.wga.hu/art/a/b.jpg", "t", "d"⟩ true)
        ⟨[], [], [], 0, [("baroque", "wga_000000000.jpg")], [], []⟩).files
      = [("baroque", "wga_000000000.jpg")] := by
  constructor
  · have h := c4_existing_file_not_rewritten.1 [1, 2, 3] "image/png"
      "https://example.com/p.png" "tate_images" "w" [("tate_images/w.png", 9)] false 9
      (by decide) (by decide) (by decide)
    exact h
  · have h := (c4_existing_file_not_rewritten.2 ⟨"Baroque", "baroque", "painter", "s", "n", "u"⟩
      ⟨"w", "https://www.wga.hu/art/a/b.jpg", "t", "d"⟩ true
      ⟨[], [], [], 0, [("baroque", "wga_000000000.jpg")], [], []⟩
      (by decide) (by decide)).1
    exact h

/-! ## Extension selection: suffix case analysis -/

/-- Two leading segments of the same list are comparable. -/
theorem isPrefixL_or : ∀ (r a b : List Char), isPrefixL a r = true → isPrefixL b r = true →
    isPrefixL a b = true ∨ isPrefixL b a = true := by
  intro r
  induction r with
  | nil =>
    intro a b ha hb
    cases a with
    | nil => exact Or.inl rfl
    | cons x as => exact absurd ha (by simp [isPrefixL])
  | cons c rs ih =>
    intro a b ha hb
    cases a with
    | nil => exact Or.inl rfl
    | cons x as =>
      cases b with
      | nil => exact Or.inr rfl
      | cons y bs =>
        simp only [isPrefixL, Bool.and_eq_true, beq_iff_eq] at ha hb
        rcases ih as bs ha.2 hb.2 with h | h
        · exact Or.inl (by simp [isPrefixL, ha.1, hb.1, h])
        · exact Or.inr (by simp [isPrefixL, ha.1, hb.1, h])

/-- A string cannot end in `a` when it ends in `b` and neither of the two
reversed suffixes is a leading segment of the other. -/
theorem strEnds_false_of_ends {s : String} (a b : String) (hb : strEnds s b = true)
    (hab : isPrefixL a.toList.reverse b.toList.reverse = false)
    (hba : isPrefixL b.toList.reverse a.toList.reverse = false) :
    strEnds s a = false := by
  cases h : strEnds s a
  · rfl
  · exfalso
    rcases isPrefixL_or s.toList.reverse a.toList.reverse b.toList.reverse h hb with hh | hh
    · rw [hab] at hh; exact Bool.false_ne_true hh
    · rw [hba] at hh; exact Bool.false_ne_true hh

/-- The extension search returns nothing or one of the four known groups. -/
theorem extSearch_cases (p : String) :
    extSearch p = none ∨ extSearch p = some "jpg" ∨ extSearch p = some "jpeg"
      ∨ extSearch p = some "png" ∨ extSearch p = some "webp" := by
  unfold extSearch
  split_ifs <;> simp

/-- C9 counterexample: the wga builder chooses the stored extension with
`ext_from_url`, which keeps ".jpg" without normalizing it to ".jpeg" — a
stored image of a `.jpg` source URL gets a `.jpg` file. -/
theorem c9_wga_no_normalization :
    extFromUrl "https://www.wga.hu/art/a/art1.jpg" = ".jpg"
  ∧ ¬ (extFromUrl "https://www.wga.hu/art/a/art1.jpg" = ".jpeg")
  ∧ (buildDataset 1 2
      (fun _ => some [WorkResult.parsed
        (ArtRecord.mk "https://www.wga.hu/html/a/art/w1.html"
          "https://www.wga.hu/art/a/1.jpg" "T1" "D1") true])
      [Artist.mk "Painter A" "https://www.wga.hu/html/a/art/index.html" ""
        "Baroque" "Italian painter" "painter"]).1.map Row.localPath
      = ["images/baroque/wga_000000000.jpg"] :=
  ⟨rfl, by decide, by rfl⟩

/-- C9 amended: in the modern parser the extension is chosen exactly as the
claim says — URL path suffix first with jpg normalized to jpeg, then the
declared content type, then the jpeg default, always landing in the
allow list.  In the wga builder the extension is taken from the URL path
suffix alone over five known suffixes with no jpg-to-jpeg normalization
and a ".jpg" default, ignoring the content type. -/
theorem c9_extension_choice :
    (∀ url ct, strEnds (strLower (urlPath url)) ".jpg" = true →
        guessExtFromUrlOrCt url ct = ".jpeg")
  ∧ (∀ url ct, strEnds (strLower (urlPath url)) ".jpeg" = true →
        guessExtFromUrlOrCt url ct = ".jpeg")
  ∧ (∀ url ct, strEnds (strLower (urlPath url)) ".png" = true →
        guessExtFromUrlOrCt url ct = ".png")
  ∧ (∀ url ct, strEnds (strLower (urlPath url)) ".webp" = true →
        guessExtFromUrlOrCt url ct = ".webp")
  ∧ (∀ url ct, extSearch (urlPath url) = none →
        (strContains (strLower ct) "jpeg" || strContains (strLower ct) "jpg") = true →
        guessExtFromUrlOrCt url ct = ".jpeg")
  ∧ (∀ url ct, extSearch (urlPath url) = none →
        (strContains (strLower ct) "jpeg" || strContains (strLower ct) "jpg") = false →
        strContains (strLower ct) "png" = true →
        guessExtFromUrlOrCt url ct = ".png")
  ∧ (∀ url ct, extSearch (urlPath url) = none →
        (strContains (strLower ct) "jpeg" || strContains (strLower ct) "jpg") = false →
        strContains (strLower ct) "png" = false →
        strContains (strLower ct) "webp" = false →
        guessExtFromUrlOrCt url ct = ".jpeg")
  ∧ (∀ url ct, guessExtFromUrlOrCt url ct ∈ [".jpeg", ".png", ".webp"])
  ∧ (∀ u, strEnds (strLower (urlPath u)) ".jpg" = true → extFromUrl u = ".jpg")
  ∧ (∀ u, extFromUrl u ∈ [".jpg", ".jpeg", ".png", ".webp", ".gif"]) := by
  refine ⟨?_, ?_, ?_, ?_, ?_, ?_, ?_, ?_, ?_, ?_⟩
  · intro url ct h
    by_cases hu : url = ""
    · subst hu; exact absurd h (by decide)
    · have hse : extSearch (urlPath url) = some "jpg" := by simp [extSearch, h]
      simp [guessExtFromUrlOrCt, hu, hse]
  · intro url ct h
    by_cases hu : url = ""
    · subst hu; exact absurd h (by decide)
    · have h1 : strEnds (strLower (urlPath url)) ".jpg" = false :=
        strEnds_false_of_ends ".jpg" ".jpeg" h (by decide) (by decide)
      have hse : extSearch (urlPath url) = some "jpeg" := by simp [extSearch, h1, h]
      simp [guessExtFromUrlOrCt, hu, hse]
  · intro url ct h
    by_cases hu : url = ""
    · subst hu; exact absurd h (by decide)
    · have h1 : strEnds (strLower (urlPath url)) ".jpg" = false :=
        strEnds_false_of_ends ".jpg" ".png" h (by decide) (by decide)
      have h2 : strEnds (strLower (urlPath url)) ".jpeg" = false :=
        strEnds_false_of_ends ".jpeg" ".png" h (by decide) (by decide)
      have hse : extSearch (urlPath url) = some "png" := by simp [extSearch, h1, h2, h]
      simp [guessExtFromUrlOrCt, hu, hse]
  · intro url ct h
    by_cases hu : url = ""
    · subst hu; exact absurd h (by decide)
    · have h1 : strEnds (strLower (urlPath url)) ".jpg" = false :=
        strEnds_false_of_ends ".jpg" ".webp" h (by decide) (by decide)
      have h2 : strEnds (strLower (urlPath url)) ".jpeg" = false :=
        strEnds_false_of_ends ".jpeg" ".webp" h (by decide) (by decide)
      have h3 : strEnds (strLower (urlPath url)) ".png" = false :=
        strEnds_false_of_ends ".png" ".webp" h (by decide) (by decide)
      have hse : extSearch (urlPath url) = some "webp" := by
        simp [extSearch, h1, h2, h3, h]
      simp [guessExtFromUrlOrCt, hu, hse]
  · intro url ct hse hct
    have hctne : ct ≠ "" := by
      rintro rfl; exact absurd hct (by decide)
    by_cases hu : url = ""
    · simp [guessExtFromUrlOrCt, hu, hctne, hct]
    · simp [guessExtFromUrlOrCt, hu, hse, hctne, hct]
  · intro url ct hse hjp hpng
    have hctne : ct ≠ "" := by
      rintro rfl; exact absurd hpng (by decide)
    by_cases hu : url = ""
    · simp [guessExtFromUrlOrCt, hu, hctne, hjp, hpng]
    · simp [guessExtFromUrlOrCt, hu, hse, hctne, hjp, hpng]
  · intro url ct hse hjp hpng hwebp
    by_cases hct : ct = ""
    · by_cases hu : url = ""
      · simp [guessExtFromUrlOrCt, hu, hct]
      · simp [guessExtFromUrlOrCt, hu, hse, hct]
    · by_cases hu : url = ""
      · simp [guessExtFromUrlOrCt, hu, hct, hjp, hpng, hwebp]
      · simp [guessExtFromUrlOrCt, hu, hse, hct, hjp, hpng, hwebp]
  · intro url ct
    by_cases hu : url = ""
    · subst hu
      have he : guessExtFromUrlOrCt "" ct
          = (if ct ≠ "" then
               (if strContains (strLower ct) "jpeg" || strContains (strLower ct) "jpg" then
                  ".jpeg"
                else if strContains (strLower ct) "png" then ".png"
                else if strContains (strLower ct) "webp" then ".webp" else ".jpeg")
             else ".jpeg") := rfl
      rw [he]
      split_ifs <;> decide
    · rcases extSearch_cases (urlPath url) with hse | hse | hse | hse | hse
      · have he : guessExtFromUrlOrCt url ct
            = (if ct ≠ "" then
                 (if strContains (strLower ct) "jpeg" || strContains (strLower ct) "jpg" then
                    ".jpeg"
                  else if strContains (strLower ct) "png" then ".png"
                  else if strContains (strLower ct) "webp" then ".webp" else ".jpeg")
               else ".jpeg") := by
          unfold guessExtFromUrlOrCt
          rw [if_pos hu, hse]
        rw [he]
        split_ifs <;> decide
      · have he : guessExtFromUrlOrCt url ct = ".jpeg" := by
          unfold guessExtFromUrlOrCt
          rw [if_pos hu, hse]
          rfl
        rw [he]; decide
      · have he : guessExtFromUrlOrCt url ct = "." ++ "jpeg" := by
          unfold guessExtFromUrlOrCt
          rw [if_pos hu, hse]
          rfl
        rw [he]; decide
      · have he : guessExtFromUrlOrCt url ct = "." ++ "png" := by
          unfold guessExtFromUrlOrCt
          rw [if_pos hu, hse]
          rfl
        rw [he]; decide
      · have he : guessExtFromUrlOrCt url ct = "." ++ "webp" := by
          unfold guessExtFromUrlOrCt
          rw [if_pos hu, hse]
          rfl
        rw [he]; decide
  · intro u h
    simp [extFromUrl, h]
  · intro u
    unfold extFromUrl
    split_ifs <;> simp

/-- C9 witness: the amended clauses at concrete URLs and content types. -/
theorem c9_extension_witness :
    guessExtFromUrlOrCt "https://example.com/img/pic.JPG?w=1" "text/html" = ".jpeg"
  ∧ guessExtFromUrlOrCt "https://example.com/img/pic" "image/PNG" = ".png"
  ∧ guessExtFromUrlOrCt "https://example.com/img/pic" "application/octet-stream" = ".jpeg"
  ∧ extFromUrl "https://www.wga.hu/art/a/b/c.jpg" = ".jpg" :=
  ⟨c9_extension_choice.1 "https://example.com/img/pic.JPG?w=1" "text/html" (by decide),
   c9_extension_choice.2.2.2.2.2.1 "https://example.com/img/pic" "image/PNG"
     (by decide) (by decide) (by decide),
   c9_extension_choice.2.2.2.2.2.2.1 "https://example.com/img/pic" "application/octet-stream"
     (by decide) (by decide) (by decide) (by decide),
   c9_extension_choice.2.2.2.2.2.2.2.2.1 "https://www.wga.hu/art/a/b/c.jpg" (by decide)⟩

/-! ## Dataset assembly: the run invariant -/

/-- Unfolding equation of `getCount` on a cons cell. -/
theorem getCount_cons (q : String) (n : Nat) (rest : List (String × Nat)) (k : String) :
    getCount ((q, n) :: rest) k = if q = k then n else getCount rest k := rfl

/-- Unfolding equation of `bumpCount` on a cons cell. -/
theorem bumpCount_cons (q : String) (n : Nat) (rest : List (String × Nat)) (m : String) :
    bumpCount ((q, n) :: rest) m
      = if q = m then (q, n + 1) :: rest else (q, n) :: bumpCount rest m := rfl

/-- The function `bumpCount` increments exactly the bumped key. -/
theorem getCount_bump (c : List (String × Nat)) (m k : String) :
    getCount (bumpCount c m) k = if m = k then getCount c k + 1 else getCount c k := by
  induction c with
  | nil => by_cases h : m = k <;> simp [bumpCount, getCount, h]
  | cons p rest ih =>
    obtain ⟨q, n⟩ := p
    by_cases h1 : q = m
    · by_cases h2 : q = k
      · have hmk : m = k := h1.symm.trans h2
        simp [bumpCount_cons, getCount_cons, h1, h2, hmk]
      · have hmk : ¬ (m = k) := fun hh => h2 (h1.trans hh)
        simp [bumpCount_cons, getCount_cons, h1, h2, hmk]
    · by_cases h2 : q = k
      · have h3 : ¬ (m = k) := fun hh => h1 (h2.trans hh.symm)
        have h4 : ¬ (k = m) := fun hh => h3 hh.symm
        simp [bumpCount_cons, getCount_cons, h1, h2, h3, h4]
      · simp [bumpCount_cons, getCount_cons, h1, h2, ih]

/-- Prepending one row shifts the class count of exactly its class. -/
theorem classCount_cons (r : Row) (rows : List Row) (m : String) :
    classCount (r :: rows) m
      = (if r.movementId = m then 1 else 0) + classCount rows m := by
  unfold classCount
  by_cases h : r.movementId = m <;> simp [List.filter_cons, h, Nat.add_comm]

/-- Appending one row shifts the class count of exactly its class. -/
theorem classCount_append (rows : List Row) (r : Row) (m : String) :
    classCount (rows ++ [r]) m
      = classCount rows m + if r.movementId = m then 1 else 0 := by
  unfold classCount
  rw [List.filter_append]
  by_cases h : r.movementId = m <;> simp [h]

/-- Counting in a list filtered by a predicate on the class. -/
theorem classCount_filter (rows : List Row) (p : String → Bool) (m : String) :
    classCount (rows.filter (fun r => p r.movementId)) m
      = if p m then classCount rows m else 0 := by
  induction rows with
  | nil =>
    by_cases h : p m <;> simp [classCount, h]
  | cons r rest ih =>
    rw [List.filter_cons]
    by_cases hp : p r.movementId
    · rw [if_pos (by simpa using hp), classCount_cons, classCount_cons, ih]
      by_cases h1 : r.movementId = m
      · have hpm : p m = true := h1 ▸ hp
        simp [h1, hpm]
      · simp [h1]
    · rw [if_neg (by simpa using hp), ih, classCount_cons]
      by_cases h1 : r.movementId = m
      · have hpm : p m = false := by
          rw [← h1]
          simpa using hp
        simp [h1, hpm]
      · simp [h1]

/-- A class appears among the manifest rows exactly when its count is
positive. -/
theorem mem_classes_iff_classCount_pos (rows : List Row) (m : String) :
    m ∈ rows.map Row.movementId ↔ 0 < classCount rows m := by
  unfold classCount
  rw [List.length_pos]
  constructor
  · intro h
    rcases List.mem_map.1 h with ⟨r, hr, hm⟩
    intro hnil
    have : r ∈ rows.filter (fun x => decide (x.movementId = m)) :=
      List.mem_filter.2 ⟨hr, by simp [hm]⟩
    rw [hnil] at this
    exact absurd this (List.not_mem_nil r)
  · intro h
    rcases List.exists_mem_of_ne_nil _ h with ⟨r, hr⟩
    rcases List.mem_filter.1 hr with ⟨hmem, hdec⟩
    exact List.mem_map.2 ⟨r, hmem, by simpa using hdec⟩

/-- The model of `to_lowercase_identifier` always produces a non-empty string over the
slug alphabet. -/
theorem tli_shape (s : String) :
    toLowercaseIdentifier s ≠ ""
  ∧ ∀ c ∈ (toLowercaseIdentifier s).toList, isSlugChar c = true := by
  unfold toLowercaseIdentifier
  by_cases h : String.mk ((String.mk (collapseWs false
      (strLower (strTrim s)).toList)).toList.filter isSlugChar) = ""
  · rw [if_pos h]
    exact ⟨by decide, by decide⟩
  · rw [if_neg h]
    refine ⟨h, ?_⟩
    intro c hc
    exact (List.mem_filter.1 hc).2

/-- The run invariant of `build_dataset`: the counts dict agrees with the
per-class row counts and respects the ceiling, accepted image URLs are
pairwise distinct and recorded in the seen set, every written file
belongs to a class that has a row, and every row carries a valid,
non-sentinel class slug. -/
structure AssemblerInv (maxC : Nat) (st : BuildState) : Prop where
  countsEq : ∀ m, getCount st.counts m = classCount st.rows m
  countsLe : ∀ m, getCount st.counts m ≤ maxC
  urlsNodup : (st.rows.map Row.imageUrl).Nodup
  seenNodup : st.seenImageUrls.Nodup
  rowsSeen : ∀ r ∈ st.rows, r.imageUrl ∈ st.seenImageUrls
  filesSlugs : ∀ f ∈ st.files, f.1 ∈ st.rows.map Row.movementId
  rowsSlug : ∀ r ∈ st.rows, r.movementId ≠ "unknown" ∧ r.movementId ≠ ""
    ∧ ∀ c ∈ r.movementId.toList, isSlugChar c = true

/-- The manifest row built for an accepted candidate. -/
def stepRow (ctx : ArtistCtx) (art : ArtRecord) (st : BuildState) : Row :=
  ⟨"wga_" ++ pad9 st.sampleId, ctx.movement, ctx.movementId, ctx.profession,
    ctx.schoolRaw, ctx.artistName, ctx.artistUrl, art.workUrl, art.imageUrl,
    art.title, art.date,
    "images/" ++ ctx.movementId ++ "/" ++ ("wga_" ++ pad9 st.sampleId ++ extFromUrl art.imageUrl)⟩

/-- A duplicate image URL leaves the state untouched. -/
theorem stepWork_dup (ctx : ArtistCtx) (art : ArtRecord) (dlOk : Bool) (st : BuildState)
    (h : art.imageUrl ∈ st.seenImageUrls) :
    stepWork ctx (.parsed art dlOk) st = st := by
  simp only [stepWork]
  rw [if_pos h]

/-- Acceptance when the image file already exists: a row is appended and the
counters move, but no file is written and no download happens. -/
theorem stepWork_fresh_exists (ctx : ArtistCtx) (art : ArtRecord) (dlOk : Bool)
    (st : BuildState) (h : art.imageUrl ∉ st.seenImageUrls)
    (hf : (ctx.movementId, "wga_" ++ pad9 st.sampleId ++ extFromUrl art.imageUrl) ∈ st.files) :
    stepWork ctx (.parsed art dlOk) st =
      { st with rows := st.rows ++ [stepRow ctx art st],
                counts := bumpCount st.counts ctx.movementId,
                seenImageUrls := st.seenImageUrls ++ [art.imageUrl],
                sampleId := st.sampleId + 1 } := by
  simp only [stepWork]
  rw [if_neg h, if_pos hf]
  rfl

/-- Acceptance with a successful download: the row, the seen URL, the file
and the download-log entry are all recorded. -/
theorem stepWork_fresh_dl (ctx : ArtistCtx) (art : ArtRecord) (st : BuildState)
    (h : art.imageUrl ∉ st.seenImageUrls)
    (hf : (ctx.movementId, "wga_" ++ pad9 st.sampleId ++ extFromUrl art.imageUrl) ∉ st.files) :
    stepWork ctx (.parsed art true) st =
      { st with rows := st.rows ++ [stepRow ctx art st],
                counts := bumpCount st.counts ctx.movementId,
                seenImageUrls := st.seenImageUrls ++ [art.imageUrl],
                sampleId := st.sampleId + 1,
                files := st.files
                  ++ [(ctx.movementId, "wga_" ++ pad9 st.sampleId ++ extFromUrl art.imageUrl)],
                downloadLog := st.downloadLog ++ [art.imageUrl] } := by
  simp only [stepWork]
  rw [if_neg h, if_neg hf]
  simp [stepRow]

/-- A failing download after the seen-set update: only the seen set and the
download log grow; no row, count, or file is recorded. -/
theorem stepWork_fresh_fail (ctx : ArtistCtx) (art : ArtRecord) (st : BuildState)
    (h : art.imageUrl ∉ st.seenImageUrls)
    (hf : (ctx.movementId, "wga_" ++ pad9 st.sampleId ++ extFromUrl art.imageUrl) ∉ st.files) :
    stepWork ctx (.parsed art false) st =
      { st with seenImageUrls := st.seenImageUrls ++ [art.imageUrl],
                downloadLog := st.downloadLog ++ [art.imageUrl] } := by
  simp only [stepWork]
  rw [if_neg h, if_neg hf]
  simp

/-- The invariant survives an acceptance, for any resulting file list whose
entries belong either to an old class or to the accepting class. -/
theorem accept_inv {maxC : Nat} {st : BuildState} {ctx : ArtistCtx} {art : ArtRecord}
    (inv : AssemblerInv maxC st)
    (hcount : getCount st.counts ctx.movementId < maxC)
    (hunk : ctx.movementId ≠ "unknown") (hne : ctx.movementId ≠ "")
    (hchars : ∀ c ∈ ctx.movementId.toList, isSlugChar c = true)
    (hmem : art.imageUrl ∉ st.seenImageUrls)
    (files' : List (String × String))
    (hfiles : ∀ f ∈ files', f.1 ∈ st.rows.map Row.movementId ∨ f.1 = ctx.movementId)
    (crawlLog' downloadLog' : List String) :
    AssemblerInv maxC
      { rows := st.rows ++ [stepRow ctx art st],
        counts := bumpCount st.counts ctx.movementId,
        seenImageUrls := st.seenImageUrls ++ [art.imageUrl],
        sampleId := st.sampleId + 1,
        files := files', crawlLog := crawlLog', downloadLog := downloadLog' } := by
  have hmid : (stepRow ctx art st).movementId = ctx.movementId := rfl
  have hurl : (stepRow ctx art st).imageUrl = art.imageUrl := rfl
  constructor
  · intro m
    show getCount (bumpCount st.counts ctx.movementId) m
      = classCount (st.rows ++ [stepRow ctx art st]) m
    rw [getCount_bump, classCount_append, hmid, inv.countsEq m]
    by_cases h : ctx.movementId = m <;> simp [h]
  · intro m
    show getCount (bumpCount st.counts ctx.movementId) m ≤ maxC
    rw [getCount_bump]
    by_cases h : ctx.movementId = m
    · rw [if_pos h]
      have := h ▸ hcount
      omega
    · rw [if_neg h]
      exact inv.countsLe m
  · show ((st.rows ++ [stepRow ctx art st]).map Row.imageUrl).Nodup
    rw [List.map_append]
    refine nodup_append_one inv.urlsNodup ?_
    intro hcontra
    rcases List.mem_map.1 (by simpa using hcontra) with ⟨r, hr, heq⟩
    have h3 := inv.rowsSeen r hr
    rw [heq, hurl] at h3
    exact hmem h3
  · exact nodup_append_one inv.seenNodup hmem
  · intro r hr
    rcases List.mem_append.1 hr with hr1 | hr2
    · exact List.mem_append_left _ (inv.rowsSeen r hr1)
    · have : r = stepRow ctx art st := by simpa using hr2
      rw [this, hurl]
      exact List.mem_append_right _ (by simp)
  · intro f hf
    rcases hfiles f hf with h1 | h2
    · rw [List.map_append]
      exact List.mem_append_left _ h1
    · rw [List.map_append, h2]
      refine List.mem_append_right _ ?_
      simp [hmid]
  · intro r hr
    rcases List.mem_append.1 hr with hr1 | hr2
    · exact inv.rowsSlug r hr1
    · have : r = stepRow ctx art st := by simpa using hr2
      rw [this]
      exact ⟨hunk, hne, hchars⟩

/-- One work-page step preserves the invariant when taken under the quota
guard with a valid class slug. -/
theorem stepWork_inv {maxC : Nat} {st : BuildState} {ctx : ArtistCtx} (wr : WorkResult)
    (inv : AssemblerInv maxC st)
    (hcount : getCount st.counts ctx.movementId < maxC)
    (hunk : ctx.movementId ≠ "unknown") (hne : ctx.movementId ≠ "")
    (hchars : ∀ c ∈ ctx.movementId.toList, isSlugChar c = true) :
    AssemblerInv maxC (stepWork ctx wr st) := by
  cases wr with
  | parseError => exact inv
  | noImage => exact inv
  | parsed art dlOk =>
    by_cases hmem : art.imageUrl ∈ st.seenImageUrls
    · rw [stepWork_dup ctx art dlOk st hmem]
      exact inv
    · by_cases hf :
        (ctx.movementId, "wga_" ++ pad9 st.sampleId ++ extFromUrl art.imageUrl) ∈ st.files
      · rw [stepWork_fresh_exists ctx art dlOk st hmem hf]
        exact accept_inv inv hcount hunk hne hchars hmem st.files
          (fun f hf2 => Or.inl (inv.filesSlugs f hf2)) st.crawlLog st.downloadLog
      · cases dlOk with
        | true =>
          rw [stepWork_fresh_dl ctx art st hmem hf]
          refine accept_inv inv hcount hunk hne hchars hmem _ ?_ st.crawlLog _
          intro f hf2
          rcases List.mem_append.1 hf2 with h1 | h2
          · exact Or.inl (inv.filesSlugs f h1)
          · have : f = (ctx.movementId, "wga_" ++ pad9 st.sampleId ++ extFromUrl art.imageUrl) := by
              simpa using h2
            exact Or.inr (by rw [this])
        | false =>
          rw [stepWork_fresh_fail ctx art st hmem hf]
          exact
            { countsEq := inv.countsEq
              countsLe := inv.countsLe
              urlsNodup := inv.urlsNodup
              seenNodup := nodup_append_one inv.seenNodup hmem
              rowsSeen := fun r hr => List.mem_append_left _ (inv.rowsSeen r hr)
              filesSlugs := inv.filesSlugs
              rowsSlug := inv.rowsSlug }

/-- The per-artist work loop preserves the invariant. -/
theorem processWorks_inv (maxC : Nat) (ctx : ArtistCtx)
    (hunk : ctx.movementId ≠ "unknown") (hne : ctx.movementId ≠ "")
    (hchars : ∀ c ∈ ctx.movementId.toList, isSlugChar c = true) :
    ∀ (wrs : List WorkResult) (st : BuildState), AssemblerInv maxC st →
      AssemblerInv maxC (processWorks maxC ctx wrs st) := by
  intro wrs
  induction wrs with
  | nil => exact fun st inv => inv
  | cons wr rest ih =>
    intro st inv
    show AssemblerInv maxC (if maxC ≤ getCount st.counts ctx.movementId then st
      else processWorks maxC ctx rest (stepWork ctx wr st))
    by_cases hguard : maxC ≤ getCount st.counts ctx.movementId
    · rw [if_pos hguard]
      exact inv
    · rw [if_neg hguard]
      exact ih _ (stepWork_inv wr inv (lt_of_not_le hguard) hunk hne hchars)

/-- The per-artist step preserves the invariant. -/
theorem processArtist_inv (maxC : Nat) (crawl : String → Option (List WorkResult))
    (st : BuildState) (a : Artist) (inv : AssemblerInv maxC st) :
    AssemblerInv maxC (processArtist maxC crawl st a) := by
  have invLog : AssemblerInv maxC
      { st with crawlLog := st.crawlLog ++ [normalizeArtistUrl a.artistUrl] } :=
    { countsEq := inv.countsEq, countsLe := inv.countsLe, urlsNodup := inv.urlsNodup,
      seenNodup := inv.seenNodup, rowsSeen := inv.rowsSeen, filesSlugs := inv.filesSlugs,
      rowsSlug := inv.rowsSlug }
  unfold processArtist
  by_cases h1 : toLowercaseIdentifier (strTrim a.movementRaw) = "unknown"
  · rw [if_pos h1]
    exact inv
  · rw [if_neg h1]
    by_cases h2 : maxC ≤ getCount st.counts (toLowercaseIdentifier (strTrim a.movementRaw))
    · rw [if_pos h2]
      exact inv
    · rw [if_neg h2]
      cases hc : crawl (normalizeArtistUrl a.artistUrl) with
      | none => exact invLog
      | some wrs =>
        exact processWorks_inv maxC
          ⟨strTrim a.movementRaw, toLowercaseIdentifier (strTrim a.movementRaw), a.profession,
            a.schoolRaw, a.artistName, normalizeArtistUrl a.artistUrl⟩
          h1 (tli_shape (strTrim a.movementRaw)).1 (tli_shape (strTrim a.movementRaw)).2
          wrs _ invLog

/-- The whole artist loop preserves the invariant. -/
theorem foldl_processArtist_inv (maxC : Nat) (crawl : String → Option (List WorkResult)) :
    ∀ (l : List Artist) (st : BuildState), AssemblerInv maxC st →
      AssemblerInv maxC (l.foldl (processArtist maxC crawl) st) := by
  intro l
  induction l with
  | nil => exact fun st inv => inv
  | cons a rest ih =>
    intro st inv
    exact ih _ (processArtist_inv maxC crawl st a inv)

/-- The invariant holds for the fresh state and hence for the whole run. -/
theorem buildStateRun_inv (maxC : Nat) (crawl : String → Option (List WorkResult))
    (artists : List Artist) : AssemblerInv maxC (buildStateRun maxC crawl artists) := by
  unfold buildStateRun
  refine foldl_processArtist_inv maxC crawl artists _ ?_
  refine ⟨?_, ?_, ?_, ?_, ?_, ?_, ?_⟩ <;> simp [getCount, classCount]

/-! ## Quota invariant and dedup invariant -/

/-- Class counts inside the purged manifest: kept classes keep their count,
dropped classes count zero. -/
theorem purgeRows_classCount (minC : Nat) (st : BuildState) (m : String) :
    classCount (purgeRows minC st) m
      = if minC ≤ classCount st.rows m then classCount st.rows m else 0 := by
  have h0 := classCount_filter st.rows
    (fun mm => decide (minC ≤ classCount st.rows mm)) m
  simpa using h0

/-- The two quota bounds and the purge guarantee, stated against an arbitrary
invariant-satisfying state whose rows and files undergo the end-of-run
purge. -/
theorem purge_spec (minC maxC : Nat) (st : BuildState) (inv : AssemblerInv maxC st)
    (rowsF : List Row) (filesF : List (String × String))
    (hrf : (if st.rows ≠ [] ∧ 1 < minC then (purgeRows minC st, purgeFiles minC st)
            else (st.rows, st.files)) = (rowsF, filesF)) :
    (∀ m, m ∈ rowsF.map Row.movementId →
        minC ≤ classCount rowsF m ∧ classCount rowsF m ≤ maxC)
  ∧ (∀ m, classCount st.rows m < minC →
        m ∉ rowsF.map Row.movementId ∧ ∀ f ∈ filesF, f.1 ≠ m) := by
  by_cases hp : st.rows ≠ [] ∧ 1 < minC
  · rw [if_pos hp] at hrf
    injection hrf with h1 h2
    subst h1
    subst h2
    constructor
    · intro m hm
      rcases List.mem_map.1 hm with ⟨r, hr, hmr⟩
      have hr2 := List.mem_filter.1 hr
      have hge : minC ≤ classCount st.rows m := by
        simpa [hmr] using hr2.2
      have hcc : classCount (purgeRows minC st) m = classCount st.rows m := by
        rw [purgeRows_classCount, if_pos hge]
      rw [hcc]
      refine ⟨hge, ?_⟩
      rw [← inv.countsEq m]
      exact inv.countsLe m
    · intro m hlt
      constructor
      · intro hm
        rcases List.mem_map.1 hm with ⟨r, hr, hmr⟩
        have hr2 := List.mem_filter.1 hr
        have hge : minC ≤ classCount st.rows m := by
          simpa [hmr] using hr2.2
        omega
      · intro f hf hfm
        have hf2 := List.mem_filter.1 hf
        have hslug := inv.filesSlugs f hf2.1
        have hcontr : ¬ (f.1 ∈ st.rows.map Row.movementId
            ∧ classCount st.rows f.1 < minC) := by
          simpa using hf2.2
        apply hcontr
        refine ⟨hslug, ?_⟩
        rw [hfm]
        exact hlt
  · rw [if_neg hp] at hrf
    injection hrf with h1 h2
    subst h1
    subst h2
    have hcase : st.rows = [] ∨ minC ≤ 1 := by
      by_cases h : st.rows = []
      · exact Or.inl h
      · right
        by_contra h2
        exact hp ⟨h, by omega⟩
    constructor
    · intro m hm
      rcases hcase with hnil | hle
      · rw [hnil] at hm
        simp at hm
      · have hpos : 0 < classCount st.rows m := (mem_classes_iff_classCount_pos _ _).1 hm
        refine ⟨by omega, ?_⟩
        rw [← inv.countsEq m]
        exact inv.countsLe m
    · intro m hlt
      constructor
      · intro hm
        have hpos := (mem_classes_iff_classCount_pos _ _).1 hm
        rcases hcase with hnil | hle
        · rw [hnil] at hpos
          simp [classCount] at hpos
        · omega
      · intro f hf hfm
        have hslug := inv.filesSlugs f hf
        rw [hfm] at hslug
        have hpos := (mem_classes_iff_classCount_pos _ _).1 hslug
        rcases hcase with hnil | hle
        · rw [hnil] at hpos
          simp [classCount] at hpos
        · omega

/-- C1: every class present in the final manifest has between `min_per_class`
and `max_per_class` accepted rows, and a class whose accepted count ended
below the floor is absent from the manifest and owns no remaining image
file. -/
theorem c1_quota_and_purge (minC maxC : Nat) (crawl : String → Option (List WorkResult))
    (artists : List Artist) :
    (∀ m, m ∈ (buildDataset minC maxC crawl artists).1.map Row.movementId →
        minC ≤ classCount (buildDataset minC maxC crawl artists).1 m
          ∧ classCount (buildDataset minC maxC crawl artists).1 m ≤ maxC)
  ∧ (∀ m, classCount (buildStateRun maxC crawl artists).rows m < minC →
        m ∉ (buildDataset minC maxC crawl artists).1.map Row.movementId
          ∧ ∀ f ∈ (buildDataset minC maxC crawl artists).2, f.1 ≠ m) :=
  purge_spec minC maxC (buildStateRun maxC crawl artists)
    (buildStateRun_inv maxC crawl artists)
    (buildDataset minC maxC crawl artists).1 (buildDataset minC maxC crawl artists).2 rfl

/-- C1 witness: a one-artist run with three distinct works against
`min_per_class = 1`, `max_per_class = 2` keeps class "baroque" with two
rows, and the absent class "rococo" has no rows and no files. -/
theorem c1_quota_witness :
    (1 ≤ classCount (buildDataset 1 2
        (fun _ => some
          [WorkResult.parsed (ArtRecord.mk "https://www.wga.hu/html/a/art/w1.html"
              "https://www.wga.hu/art/a/1.jpg" "T1" "D1") true,
           WorkResult.parsed (ArtRecord.mk "https://www.wga.hu/html/a/art/w2.html"
              "https://www.wga.hu/art/a/2.jpg" "T2" "D2") true,
           WorkResult.parsed (ArtRecord.mk "https://www.wga.hu/html/a/art/w3.html"
              "https://www.wga.hu/art/a/3.jpg" "T3" "D3") true])
        [Artist.mk "Painter A" "https://www.wga.hu/html/a/art/index.html" ""
          "Baroque" "Italian painter" "painter"]).1 "baroque"
      ∧ classCount (buildDataset 1 2
        (fun _ => some
          [WorkResult.parsed (ArtRecord.mk "https://www.wga.hu/html/a/art/w1.html"
              "https://www.wga.hu/art/a/1.jpg" "T1" "D1") true,
           WorkResult.parsed (ArtRecord.mk "https://www.wga.hu/html/a/art/w2.html"
              "https://www.wga.hu/art/a/2.jpg" "T2" "D2") true,
           WorkResult.parsed (ArtRecord.mk "https://www.wga.hu/html/a/art/w3.html"
              "https://www.wga.hu/art/a/3.jpg" "T3" "D3") true])
        [Artist.mk "Painter A" "https://www.wga.hu/html/a/art/index.html" ""
          "Baroque" "Italian painter" "painter"]).1 "baroque" ≤ 2)
  ∧ ("rococo" ∉ (buildDataset 1 2
        (fun _ => some
          [WorkResult.parsed (ArtRecord.mk "https://www.wga.hu/html/a/art/w1.html"
              "https://www.wga.hu/art/a/1.jpg" "T1" "D1") true,
           WorkResult.parsed (ArtRecord.mk "https://www.wga.hu/html/a/art/w2.html"
              "https://www.wga.hu/art/a/2.jpg" "T2" "D2") true,
           WorkResult.parsed (ArtRecord.mk "https://www.wga.hu/html/a/art/w3.html"
              "https://www.wga.hu/art/a/3.jpg" "T3" "D3") true])
        [Artist.mk "Painter A" "https://www.wga.hu/html/a/art/index.html" ""
          "Baroque" "Italian painter" "painter"]).1.map Row.movementId
      ∧ ∀ f ∈ (buildDataset 1 2
        (fun _ => some
          [WorkResult.parsed (ArtRecord.mk "https://www.wga.hu/html/a/art/w1.html"
              "https://www.wga.hu/art/a/1.jpg" "T1" "D1") true,
           WorkResult.parsed (ArtRecord.mk "https://www.wga.hu/html/a/art/w2.html"
              "https://www.wga.hu/art/a/2.jpg" "T2" "D2") true,
           WorkResult.parsed (ArtRecord.mk "https://www.wga.hu/html/a/art/w3.html"
              "https://www.wga.hu/art/a/3.jpg" "T3" "D3") true])
        [Artist.mk "Painter A" "https://www.wga.hu/html/a/art/index.html" ""
          "Baroque" "Italian painter" "painter"]).2, f.1 ≠ "rococo") :=
  ⟨(c1_quota_and_purge 1 2
      (fun _ => some
        [WorkResult.parsed (ArtRecord.mk "https://www.wga.hu/html/a/art/w1.html"
            "https://www.wga.hu/art/a/1.jpg" "T1" "D1") true,
         WorkResult.parsed (ArtRecord.mk "https://www.wga.hu/html/a/art/w2.html"
            "https://www.wga.hu/art/a/2.jpg" "T2" "D2") true,
         WorkResult.parsed (ArtRecord.mk "https://www.wga.hu/html/a/art/w3.html"
            "https://www.wga.hu/art/a/3.jpg" "T3" "D3") true])
      [Artist.mk "Painter A" "https://www.wga.hu/html/a/art/index.html" ""
        "Baroque" "Italian painter" "painter"]).1 "baroque" (by decide),
   (c1_quota_and_purge 1 2
      (fun _ => some
        [WorkResult.parsed (ArtRecord.mk "https://www.wga.hu/html/a/art/w1.html"
            "https://www.wga.hu/art/a/1.jpg" "T1" "D1") true,
         WorkResult.parsed (ArtRecord.mk "https://www.wga.hu/html/a/art/w2.html"
            "https://www.wga.hu/art/a/2.jpg" "T2" "D2") true,
         WorkResult.parsed (ArtRecord.mk "https://www.wga.hu/html/a/art/w3.html"
            "https://www.wga.hu/art/a/3.jpg" "T3" "D3") true])
      [Artist.mk "Painter A" "https://www.wga.hu/html/a/art/index.html" ""
        "Baroque" "Italian painter" "painter"]).2 "rococo" (by decide)⟩

/-- C2: no two accepted records share an image URL — in the final manifest
and in the pre-purge manifest the image URLs are pairwise distinct, the
seen-image index holds each URL at most once, every accepted URL is in
the index, and a candidate whose URL is already in the index leaves the
entire state unchanged (no row, no file, no download). -/
theorem c2_no_duplicate_accepts (minC maxC : Nat) (crawl : String → Option (List WorkResult))
    (artists : List Artist) :
    ((buildDataset minC maxC crawl artists).1.map Row.imageUrl).Nodup
  ∧ ((buildStateRun maxC crawl artists).rows.map Row.imageUrl).Nodup
  ∧ (buildStateRun maxC crawl artists).seenImageUrls.Nodup
  ∧ (∀ r ∈ (buildStateRun maxC crawl artists).rows,
      r.imageUrl ∈ (buildStateRun maxC crawl artists).seenImageUrls)
  ∧ (∀ (ctx : ArtistCtx) (art : ArtRecord) (dlOk : Bool) (st : BuildState),
      art.imageUrl ∈ st.seenImageUrls → stepWork ctx (.parsed art dlOk) st = st) := by
  have inv := buildStateRun_inv maxC crawl artists
  refine ⟨?_, inv.urlsNodup, inv.seenNodup, inv.rowsSeen, stepWork_dup⟩
  unfold buildDataset
  by_cases hp : (buildStateRun maxC crawl artists).rows ≠ [] ∧ 1 < minC
  · rw [if_pos hp]
    exact (List.Sublist.map Row.imageUrl (List.filter_sublist _)).nodup inv.urlsNodup
  · rw [if_neg hp]
    exact inv.urlsNodup

/-- C2 witness: a candidate whose image URL is already in the seen-image
index leaves the concrete builder state exactly as it was. -/
theorem c2_dedup_witness :
    stepWork (ArtistCtx.mk "Baroque" "baroque" "painter" "Italian painter" "Painter A"
        "https://www.wga.hu/html/a/art/index.html")
      (.parsed (ArtRecord.mk "https://www.wga.hu/html/a/art/w9.html"
        "https://www.wga.hu/art/a/dup.jpg" "T" "D") true)
      (BuildState.mk [] [] ["https://www.wga.hu/art/a/dup.jpg"] 0 [] [] [])
      = BuildState.mk [] [] ["https://www.wga.hu/art/a/dup.jpg"] 0 [] [] [] :=
  (c2_no_duplicate_accepts 1 2 (fun _ => none) []).2.2.2.2
    (ArtistCtx.mk "Baroque" "baroque" "painter" "Italian painter" "Painter A"
      "https://www.wga.hu/html/a/art/index.html")
    (ArtRecord.mk "https://www.wga.hu/html/a/art/w9.html"
      "https://www.wga.hu/art/a/dup.jpg" "T" "D") true
    (BuildState.mk [] [] ["https://www.wga.hu/art/a/dup.jpg"] 0 [] [] [])
    (by decide)

/-! ## Class-label validity -/

/-- A predicate preserved by the last-wins URL deduplication. -/
theorem upsert_pred (P : Artist → Prop) (acc : List Artist) (r : Artist)
    (hacc : ∀ x ∈ acc, P x) (hr : P r) : ∀ x ∈ upsertByUrl acc r, P x := by
  unfold upsertByUrl
  by_cases h : acc.any (fun x => x.artistUrl == r.artistUrl)
  · rw [if_pos h]
    intro x hx
    rcases List.mem_map.1 hx with ⟨y, hy, heq⟩
    cases hb : (y.artistUrl == r.artistUrl) with
    | true =>
      rw [hb] at heq
      simp only [if_true] at heq
      rw [← heq]
      exact hr
    | false =>
      rw [hb] at heq
      simp only [Bool.false_eq_true, if_false] at heq
      rw [← heq]
      exact hacc y hy
  · rw [if_neg h]
    intro x hx
    rcases List.mem_append.1 hx with h1 | h2
    · exact hacc x h1
    · have hxr : x = r := by simpa using h2
      rw [hxr]
      exact hr

/-- A predicate preserved by folding the deduplication over a whole list. -/
theorem foldl_upsert_pred (P : Artist → Prop) :
    ∀ (l acc : List Artist), (∀ x ∈ acc, P x) → (∀ x ∈ l, P x) →
      ∀ x ∈ l.foldl upsertByUrl acc, P x := by
  intro l
  induction l with
  | nil => exact fun acc hacc _ x hx => hacc x hx
  | cons r rest ih =>
    intro acc hacc hl x hx
    exact ih (upsertByUrl acc r)
      (upsert_pred P acc r hacc (hl r (List.mem_cons_self _ _)))
      (fun y hy => hl y (List.mem_cons_of_mem _ hy)) x hx

/-- Every artist appended by the listing-row step has a non-blank movement
cell. -/
theorem cgiStep_pred (acc : List Artist) (tr : TrData)
    (hacc : ∀ x ∈ acc, strTrim x.movementRaw ≠ "") :
    ∀ x ∈ cgiStep acc tr, strTrim x.movementRaw ≠ "" := by
  unfold cgiStep
  by_cases h1 : tr.cells.length ≠ 4
  · rw [if_pos h1]
    exact hacc
  · rw [if_neg h1]
    cases hlink : tr.linkHref with
    | none => exact hacc
    | some href =>
      show ∀ x ∈ (if strTrim (tr.cells.getD 2 "") = "" then acc
        else acc ++ [Artist.mk tr.linkText (unwrapWgaFrames href) (tr.cells.getD 1 "")
          (tr.cells.getD 2 "") (tr.cells.getD 3 "")
          (extractProfessionFromSchool (tr.cells.getD 3 ""))]), strTrim x.movementRaw ≠ ""
      by_cases h2 : strTrim (tr.cells.getD 2 "") = ""
      · rw [if_pos h2]
        exact hacc
      · rw [if_neg h2]
        intro x hx
        rcases List.mem_append.1 hx with h3 | h4
        · exact hacc x h3
        · have hxr : x = Artist.mk tr.linkText (unwrapWgaFrames href) (tr.cells.getD 1 "")
              (tr.cells.getD 2 "") (tr.cells.getD 3 "")
              (extractProfessionFromSchool (tr.cells.getD 3 "")) := by
            simpa using h4
          rw [hxr]
          exact h2

/-- The whole listing-page fold keeps the non-blank-movement property. -/
theorem cgiFold_pred :
    ∀ (trs : List TrData) (acc : List Artist),
      (∀ x ∈ acc, strTrim x.movementRaw ≠ "") →
      ∀ x ∈ trs.foldl cgiStep acc, strTrim x.movementRaw ≠ "" := by
  intro trs
  induction trs with
  | nil => exact fun acc hacc x hx => hacc x hx
  | cons tr rest ih =>
    intro acc hacc x hx
    exact ih (cgiStep acc tr) (cgiStep_pred acc tr hacc) x hx

/-- C10: every row of the final manifest has a class label that is a
non-empty string over `[a-z0-9_]` and is never the sentinel "unknown";
listing rows with a blank movement cell are dropped at parse time; and an
artist whose movement normalizes to "unknown" leaves the builder state
untouched — no crawl, no fetch, no accepted record. -/
theorem c10_manifest_class_labels (minC maxC : Nat)
    (crawl : String → Option (List WorkResult)) (artists : List Artist) :
    (∀ r ∈ (buildDataset minC maxC crawl artists).1,
        r.movementId ≠ "unknown" ∧ r.movementId ≠ ""
          ∧ ∀ c ∈ r.movementId.toList, isSlugChar c = true)
  ∧ (∀ trs : List TrData, ∀ a ∈ parseArtistCgiPage trs, strTrim a.movementRaw ≠ "")
  ∧ (∀ (st : BuildState) (a : Artist),
      toLowercaseIdentifier (strTrim a.movementRaw) = "unknown" →
      processArtist maxC crawl st a = st) := by
  have inv := buildStateRun_inv maxC crawl artists
  refine ⟨?_, ?_, ?_⟩
  · intro r hr
    have hmem : r ∈ (buildStateRun maxC crawl artists).rows := by
      revert hr
      unfold buildDataset
      by_cases hp : (buildStateRun maxC crawl artists).rows ≠ [] ∧ 1 < minC
      · rw [if_pos hp]
        intro hr
        exact (List.mem_filter.1 hr).1
      · rw [if_neg hp]
        exact fun hr => hr
    exact inv.rowsSlug r hmem
  · intro trs a ha
    exact foldl_upsert_pred (fun x => strTrim x.movementRaw ≠ "")
      (trs.foldl cgiStep []) [] (by simp)
      (cgiFold_pred trs [] (by simp)) a ha
  · intro st a h
    unfold processArtist
    rw [if_pos h]

/-- C10 witness: the three clauses at concrete inputs — the single row of a
concrete run, a concrete listing table, and a concrete artist whose
movement normalizes to "unknown". -/
theorem c10_labels_witness :
    ((Row.mk "wga_000000000" "Baroque" "baroque" "painter" "Italian painter" "Painter A"
        "https://www.wga.hu/html/a/art/index.html" "https://www.wga.hu/html/a/art/w1.html"
        "https://www.wga.hu/art/a/1.jpg" "T1" "D1"
        "images/baroque/wga_000000000.jpg").movementId ≠ "unknown"
      ∧ (Row.mk "wga_000000000" "Baroque" "baroque" "painter" "Italian painter" "Painter A"
        "https://www.wga.hu/html/a/art/index.html" "https://www.wga.hu/html/a/art/w1.html"
        "https://www.wga.hu/art/a/1.jpg" "T1" "D1"
        "images/baroque/wga_000000000.jpg").movementId ≠ ""
      ∧ ∀ c ∈ (Row.mk "wga_000000000" "Baroque" "baroque" "painter" "Italian painter"
        "Painter A" "https://www.wga.hu/html/a/art/index.html"
        "https://www.wga.hu/html/a/art/w1.html" "https://www.wga.hu/art/a/1.jpg" "T1" "D1"
        "images/baroque/wga_000000000.jpg").movementId.toList, isSlugChar c = true)
  ∧ (∀ a ∈ parseArtistCgiPage
      [TrData.mk ["Painter A", "1600-1650", "Baroque", "Italian painter"]
        (some "/html/a/art/index.html") "Painter A",
       TrData.mk ["Painter B", "1600-1650", "   ", "Italian painter"]
        (some "/html/b/art/index.html") "Painter B"],
      strTrim a.movementRaw ≠ "")
  ∧ processArtist 2 (fun _ => some [])
      (BuildState.mk [] [] [] 0 [] [] [])
      (Artist.mk "Painter U" "https://www.wga.hu/html/u/u/index.html" "" "???" "school" "painter")
      = BuildState.mk [] [] [] 0 [] [] [] := by
  refine ⟨?_, ?_, ?_⟩
  · exact (c10_manifest_class_labels 1 2
      (fun _ => some [WorkResult.parsed (ArtRecord.mk "https://www.wga.hu/html/a/art/w1.html"
        "https://www.wga.hu/art/a/1.jpg" "T1" "D1") true])
      [Artist.mk "Painter A" "https://www.wga.hu/html/a/art/index.html" ""
        "Baroque" "Italian painter" "painter"]).1
      (Row.mk "wga_000000000" "Baroque" "baroque" "painter" "Italian painter" "Painter A"
        "https://www.wga.hu/html/a/art/index.html" "https://www.wga.hu/html/a/art/w1.html"
        "https://www.wga.hu/art/a/1.jpg" "T1" "D1" "images/baroque/wga_000000000.jpg")
      (by decide)
  · intro a ha
    exact (c10_manifest_class_labels 1 2 (fun _ => some []) []).2.1
      [TrData.mk ["Painter A", "1600-1650", "Baroque", "Italian painter"]
        (some "/html/a/art/index.html") "Painter A",
       TrData.mk ["Painter B", "1600-1650", "   ", "Italian painter"]
        (some "/html/b/art/index.html") "Painter B"] a ha
  · exact (c10_manifest_class_labels 1 2 (fun _ => some []) []).2.2
      (BuildState.mk [] [] [] 0 [] [] [])
      (Artist.mk "Painter U" "https://www.wga.hu/html/u/u/index.html" "" "???" "school"
        "painter")
      (by decide)

end ImageClassifier
